import Mathlib

/-!
Shallow embedding of the proxypanel forwarder core (Rust sources under
`src/proxypanel/src/`) and proofs about its specification claims.

Conventions of the embedding:
* Rust `u16`/`u32`/`u64`/`usize` become `Nat`; none of the modelled code paths
  rely on wrap-around (the only saturating operation, `saturating_sub`, is
  exactly `Nat` subtraction).
* Rust `String` becomes Lean `String`; character-level operations
  (`find`, `rsplit_once`, slicing) are performed on `String.toList`.
* `HashSet<String>` becomes `Finset String`; `HashMap<K, V>` becomes an
  association list `List (K × V)` queried by the first matching key,
  mirroring a map's single-entry-per-key semantics via a no-duplicate-keys
  invariant where needed.
* Fallible Rust functions returning `anyhow::Result` become
  `Except String _`, carrying the same error messages where a claim
  depends on them.
-/

namespace ProxyPanel

/-! ## Port-range expansion (`src/port_range.rs`) -/

/-- Rust `str::trim`, written with structural recursion on the character
list so that the kernel can evaluate it on literals (the modelled inputs
are ASCII, where this agrees with Unicode trimming). -/
def rust_trim (s : String) : String :=
  ((s.toList.dropWhile Char.isWhitespace).reverse.dropWhile Char.isWhitespace).reverse.asString

/-- Rust `str::to_uppercase`, as a character map (the modelled inputs are
ASCII country codes, where this agrees with full Unicode uppercasing). -/
def to_upper (s : String) : String := (s.toList.map Char.toUpper).asString

/-- `MAX_PORT_RANGE` from `port_range.rs`. -/
def MAX_PORT_RANGE : Nat := 1024

/-- `ListenTarget` from `port_range.rs`. -/
structure ListenTarget where
  listen_addr : String
  listen_port : Nat
  target_addr : String
deriving Repr, DecidableEq

/-- Model of Rust `str::parse::<u16>()`: optional leading `+`, then a
non-empty run of ASCII digits whose value fits in 16 bits. -/
def parse_u16 (s : String) : Option Nat :=
  let cs := s.toList
  let ds := if cs.head? = some '+' then cs.tail else cs
  if ds.isEmpty then none
  else if ds.all (fun c => c.isDigit) then
    let v := ds.foldl (fun acc c => acc * 10 + (c.toNat - 48)) 0
    if v < 65536 then some v else none
  else none

/-- `parse_port_value` from `port_range.rs`: trim, then `parse::<u16>()`. -/
def parse_port_value (raw : String) : Except String Nat :=
  match parse_u16 (rust_trim raw) with
  | some v => .ok v
  | none => .error "invalid port value"

/-- Model of Rust `str::rsplit_once(':')` on a character list: split at the
last colon, returning the parts before and after it. -/
def rsplit_once_colon (cs : List Char) : Option (List Char × List Char) :=
  match cs.reverse.findIdx? (· = ':') with
  | none => none
  | some k =>
    let i := cs.length - 1 - k
    some (cs.take i, cs.drop (i + 1))

/-- `split_host_port` from `port_range.rs`. -/
def split_host_port (addr : String) : Except String (String × String) :=
  let a := rust_trim addr
  if a.isEmpty then .error "Address is empty"
  else
    let cs := a.toList
    if cs.head? = some '[' then
      match cs.findIdx? (· = ']') with
      | none => .error "Invalid IPv6 address"
      | some e =>
        match cs.drop (e + 1) with
        | ':' :: tail =>
          if tail.isEmpty then .error "Missing port in address"
          else .ok ((cs.take (e + 1)).asString, tail.asString)
        | _ => .error "Missing port in address"
    else
      match rsplit_once_colon cs with
      | none => .error "Missing port in address"
      | some (host, port) =>
        if host.isEmpty ∨ port.isEmpty then .error "Missing host or port in address"
        else .ok (host.asString, port.asString)

/-- `parse_ports` from `port_range.rs`: a token is `N` or `N-M` (split at the
first `-`); a range must exclude 0, be ascending and have width at most
`MAX_PORT_RANGE`.  Note the single-port branch applies no zero check. -/
def parse_ports (raw : String) : Except String (List Nat) :=
  let cs := raw.toList
  match cs.findIdx? (· = '-') with
  | some i => do
    let s ← parse_port_value (cs.take i).asString
    let e ← parse_port_value (cs.drop (i + 1)).asString
    if s = 0 ∨ e = 0 then .error "Port range cannot include 0"
    else if s > e then .error "Port range start is greater than end"
    else
      let len := e - s + 1
      if len > MAX_PORT_RANGE then .error s!"Port range too large (max {MAX_PORT_RANGE})"
      else .ok (List.range' s len)
  | none => do
    let port ← parse_port_value raw
    .ok [port]

/-- Rust `format!("\x7b\x7d:\x7b\x7d", host, port)` as used when building the
expanded addresses. -/
def format_addr (host : String) (port : Nat) : String := s!"{host}:{port}"

/-- `expand_listen_targets` from `port_range.rs`. -/
def expand_listen_targets (listen_addr target_addr : String) :
    Except String (List ListenTarget) := do
  let lsplit ← split_host_port listen_addr
  let listen_ports ← parse_ports lsplit.2
  let tsplit ← split_host_port target_addr
  let target_ports ← parse_ports tsplit.2
  if target_ports.length = 1 then
    .ok (listen_ports.map fun lp =>
      { listen_addr := format_addr lsplit.1 lp
        listen_port := lp
        target_addr := format_addr tsplit.1 (target_ports.headD 0) })
  else if target_ports.length = listen_ports.length then
    .ok ((listen_ports.zip target_ports).map fun pr =>
      { listen_addr := format_addr lsplit.1 pr.1
        listen_port := pr.1
        target_addr := format_addr tsplit.1 pr.2 })
  else
    let nl := listen_ports.length
    let nt := target_ports.length
    .error s!"Port range mismatch: listen has {nl} ports, target has {nt} ports"

/-! ## Data model (`src/app.rs`, `src/protocol.rs`, `src/geo.rs`) -/

/-- `ProtocolMode` from `protocol.rs`. -/
inductive ProtocolMode where
  | tcp
  | udp
  | both
deriving Repr, DecidableEq

/-- `ProtocolMode::default()` is `Tcp`. -/
def ProtocolMode.default : ProtocolMode := .tcp

/-- `ProtocolMode::uses_tcp`. -/
def ProtocolMode.uses_tcp : ProtocolMode → Bool
  | .tcp => true
  | .both => true
  | .udp => false

/-- `ProtocolMode.uses_udp`. -/
def ProtocolMode.uses_udp : ProtocolMode → Bool
  | .udp => true
  | .both => true
  | .tcp => false

/-- `MAX_HISTORY` from `app.rs`. -/
def MAX_HISTORY : Nat := 10000

/-- `ProxyRule` from `app.rs`. -/
structure ProxyRule where
  id : Nat
  listen_addr : String
  target_addr : String
  enabled : Bool
  created_at : String
  protocol : ProtocolMode
deriving Repr, DecidableEq

/-- `ConnectionLog` from `app.rs`. -/
structure ConnectionLog where
  id : Nat
  rule_id : Nat
  client_ip : String
  listen_port : Option Nat
  started_at : String
  ended_at : Option String
  bytes_up : Nat
  bytes_down : Nat
  blocked : Bool
  reason : Option String
deriving Repr, DecidableEq

/-- `RateLimitConfig` from `app.rs`. -/
structure RateLimitConfig where
  max_new_connections_per_minute : Nat
  max_concurrent_connections_per_ip : Nat
  max_concurrent_total : Nat
deriving Repr, DecidableEq

/-- `RateLimitConfig::default()`. -/
def RateLimitConfig.default : RateLimitConfig :=
  { max_new_connections_per_minute := 120
    max_concurrent_connections_per_ip := 50
    max_concurrent_total := 2000 }

/-- `ActiveConn` from `app.rs`. -/
structure ActiveConn where
  conn_id : Nat
  rule_id : Nat
  client_ip : String
  listen_port : Option Nat
  started_at : String
  bytes_transferred : Nat
  last_update : String
deriving Repr, DecidableEq

/-- `PortBlockEntry` / `PortAllowEntry` from `app.rs` (two identical structs
in the source; one structure here, used for both persisted lists). -/
structure PortEntry where
  ip : String
  port : Nat
deriving Repr, DecidableEq

/-- `geo::GeoPortEntry`. -/
structure GeoPortEntry where
  country : String
  port : Nat
deriving Repr, DecidableEq

/-- `PersistedState` from `app.rs`: the JSON document written to
`state.json`. -/
structure PersistedState where
  rules : List ProxyRule
  blocklist : List String
  port_blocklist : List PortEntry
  allowlist : List String
  allowlist_ports : List PortEntry
  allowlist_enabled : Bool
  geo_blocklist : List String
  geo_port_blocklist : List GeoPortEntry
  history : List ConnectionLog
  rate_limit : RateLimitConfig
deriving Repr, DecidableEq

/-- `PersistedState::default()`: all collections empty, allowlist mode off,
default rate limit.  Used when the state file is absent or unparseable. -/
def PersistedState.default : PersistedState :=
  { rules := []
    blocklist := []
    port_blocklist := []
    allowlist := []
    allowlist_ports := []
    allowlist_enabled := false
    geo_blocklist := []
    geo_port_blocklist := []
    history := []
    rate_limit := RateLimitConfig.default }

/-! ### Association-list model of `HashMap`

`HashMap::get`, `insert`-style entry updates and `remove`, on an
association list queried by the first matching key. -/

/-- `HashMap::get`. -/
def mapGet {K α : Type _} [BEq K] (m : List (K × α)) (k : K) : Option α :=
  (m.find? (fun e => e.1 == k)).map (fun e => e.2)

/-- Set key `k` to `v`: update the first matching entry in place, else append. -/
def mapPut {K α : Type _} [BEq K] (m : List (K × α)) (k : K) (v : α) : List (K × α) :=
  match m with
  | [] => [(k, v)]
  | e :: rest => if e.1 == k then (k, v) :: rest else e :: mapPut rest k v

/-- `HashMap::remove` (drops the key). -/
def mapDrop {K α : Type _} [BEq K] (m : List (K × α)) (k : K) : List (K × α) :=
  m.filter (fun e => !(e.1 == k))

instance {ε α : Type _} [DecidableEq ε] [DecidableEq α] : DecidableEq (Except ε α) := fun a b =>
  match a, b with
  | .ok x, .ok y => if h : x = y then .isTrue (by rw [h]) else .isFalse (by simp [h])
  | .error x, .error y => if h : x = y then .isTrue (by rw [h]) else .isFalse (by simp [h])
  | .ok _, .error _ => .isFalse (by simp)
  | .error _, .ok _ => .isFalse (by simp)

/-- `map.entry(p).or_insert_with(HashSet::new).insert(ip)` for a
port-indexed map of string sets. -/
def map_insert_set (m : List (Nat × Finset String)) (p : Nat) (ip : String) :
    List (Nat × Finset String) :=
  match m with
  | [] => [(p, {ip})]
  | e :: rest => if e.1 == p then (e.1, insert ip e.2) :: rest else e :: map_insert_set rest p ip

/-- In-memory `AppState` from `app.rs`.  The `listeners`/`udp_listeners`
maps (OS task handles) and `data_path` are outside the shallow embedding;
`geo_db` is modelled as an optional oracle composing
`client_ip.parse::<IpAddr>()` with `geo::lookup_country` — `none` results
cover both an unparseable IP and a country miss, either of which makes the
source skip the geo checks. -/
structure AppState where
  rules : List ProxyRule
  blocklist : Finset String
  port_blocklist : List (Nat × Finset String)
  allowlist : Finset String
  allowlist_ports : List (Nat × Finset String)
  allowlist_enabled : Bool
  geo_blocklist : Finset String
  geo_port_blocklist : List (Nat × Finset String)
  geo_db : Option (String → Option String)
  history : List ConnectionLog
  rate_limit : RateLimitConfig
  active : List (Nat × ActiveConn)
  active_by_ip : List (String × Nat)
  rate_counters : List (String × List Nat)
  next_rule_id : Nat
  next_conn_id : Nat

/-! ## Admission controller (`check_allow`, `app.rs` lines 1416-1488)

Each early `return Err(..)` of the source becomes a stage returning
`Option String` (the rejection reason); `check_allow` runs the stages in
the source's order and short-circuits on the first `some`.  Time is
modelled in milliseconds as `Nat`; `Instant` timestamps in the rate
windows are `Nat` values not exceeding the current instant. -/

/-- Stage 1: `if state.allowlist_enabled && !state.allowlist.contains(client_ip)`. -/
def allowlist_check (s : AppState) (client_ip : String) : Option String :=
  if s.allowlist_enabled ∧ client_ip ∉ s.allowlist then some "Not in allowlist" else none

/-- Stage 2: per-port allowlist (`state.allowlist_ports.get(&port)`). -/
def port_allowlist_check (s : AppState) (client_ip : String) (listen_port : Option Nat) :
    Option String :=
  match listen_port with
  | none => none
  | some port =>
    match mapGet s.allowlist_ports port with
    | none => none
    | some ips =>
      if client_ip ∉ ips then some s!"Not in allowlist for port {port}" else none

/-- Stage 3: geo checks, entered only when a geo DB is loaded and the
client IP resolves to a country; per-port geo blocklist first, then the
global geo blocklist. -/
def geo_check (s : AppState) (client_ip : String) (listen_port : Option Nat) :
    Option String :=
  match s.geo_db with
  | none => none
  | some db =>
    match db client_ip with
    | none => none
    | some country =>
      let perPort : Option String :=
        match listen_port with
        | none => none
        | some port =>
          match mapGet s.geo_port_blocklist port with
          | none => none
          | some countries =>
            if country ∈ countries then some s!"Geo blocked for port {port}: {country}"
            else none
      match perPort with
      | some r => some r
      | none =>
        if country ∈ s.geo_blocklist then some s!"Geo blocked: {country}" else none

/-- Stage 4: global blocklist. -/
def blocklist_check (s : AppState) (client_ip : String) : Option String :=
  if client_ip ∈ s.blocklist then some "Blocked by rule" else none

/-- Stage 5: per-port blocklist. -/
def port_blocklist_check (s : AppState) (client_ip : String) (listen_port : Option Nat) :
    Option String :=
  match listen_port with
  | none => none
  | some port =>
    match mapGet s.port_blocklist port with
    | none => none
    | some ips =>
      if client_ip ∈ ips then some s!"Blocked for port {port}" else none

/-- Stage 6: total-active cap (`state.active.len() >= max_concurrent_total`). -/
def total_check (s : AppState) : Option String :=
  if s.rate_limit.max_concurrent_total ≤ s.active.length
  then some "Too many total connections" else none

/-- Stage 7: per-IP active cap (`active_by_ip.get(ip).copied().unwrap_or(0)`). -/
def per_ip_check (s : AppState) (client_ip : String) : Option String :=
  if s.rate_limit.max_concurrent_connections_per_ip ≤ (mapGet s.active_by_ip client_ip).getD 0
  then some "Too many active connections for IP" else none

/-- The while-loop popping window entries older than 60 seconds off the
front of the per-IP rate window. -/
def pruneWindow (now : Nat) : List Nat → List Nat
  | [] => []
  | t :: rest => if now - t > 60000 then pruneWindow now rest else t :: rest

/-- Stage 8: the rate window.  The source creates the window entry and
prunes it in place before deciding, so the state is mutated on this stage's
rejection as well; on acceptance the current instant is pushed. -/
def rate_stage (s : AppState) (now : Nat) (client_ip : String) :
    Option String × AppState :=
  let window := pruneWindow now ((mapGet s.rate_counters client_ip).getD [])
  if s.rate_limit.max_new_connections_per_minute ≤ window.length then
    (some "Rate limit exceeded", { s with rate_counters := mapPut s.rate_counters client_ip window })
  else
    (none, { s with rate_counters := mapPut s.rate_counters client_ip (window ++ [now]) })

/-- `check_allow` from `app.rs`: the eight policy stages in source order,
short-circuiting on the first rejection; returns the rejection reason (if
any) together with the state as left by the call. -/
def check_allow (s : AppState) (now : Nat) (client_ip : String) (listen_port : Option Nat) :
    Option String × AppState :=
  match allowlist_check s client_ip with
  | some r => (some r, s)
  | none =>
  match port_allowlist_check s client_ip listen_port with
  | some r => (some r, s)
  | none =>
  match geo_check s client_ip listen_port with
  | some r => (some r, s)
  | none =>
  match blocklist_check s client_ip with
  | some r => (some r, s)
  | none =>
  match port_blocklist_check s client_ip listen_port with
  | some r => (some r, s)
  | none =>
  match total_check s with
  | some r => (some r, s)
  | none =>
  match per_ip_check s client_ip with
  | some r => (some r, s)
  | none => rate_stage s now client_ip

/-! ## Connection registry (`app.rs` lines 1382-1576) -/

/-- `register_connection`: admission plus, on acceptance, id allocation,
insertion into `active` and the `active_by_ip` bump
(`entry(ip).or_insert(0) += 1`).  `nowStr` stands for `now_string()`. -/
def register_connection (s : AppState) (now : Nat) (nowStr : String) (rule_id : Nat)
    (client_ip : String) (listen_port : Option Nat) : Except String Nat × AppState :=
  match check_allow s now client_ip listen_port with
  | (some reason, s1) => (.error reason, s1)
  | (none, s1) =>
    let conn_id := s1.next_conn_id
    let s2 :=
      { s1 with
        next_conn_id := conn_id + 1
        active := mapPut s1.active conn_id
          { conn_id := conn_id
            rule_id := rule_id
            client_ip := client_ip
            listen_port := listen_port
            started_at := nowStr
            bytes_transferred := 0
            last_update := nowStr }
        active_by_ip := mapPut s1.active_by_ip client_ip
          ((mapGet s1.active_by_ip client_ip).getD 0 + 1) }
    (.ok conn_id, s2)

/-- `trim_history`: drain the oldest entries once the history exceeds
`MAX_HISTORY`. -/
def trim_history (history : List ConnectionLog) : List ConnectionLog :=
  if history.length > MAX_HISTORY then history.drop (history.length - MAX_HISTORY) else history

/-- `record_blocked`: allocate an id from `next_conn_id`, append a blocked
history entry and trim. -/
def record_blocked (s : AppState) (nowStr : String) (rule_id : Nat)
    (listen_port : Option Nat) (client_ip : String) (reason : String) : AppState :=
  let conn_id := s.next_conn_id
  { s with
    next_conn_id := conn_id + 1
    history := trim_history (s.history ++
      [{ id := conn_id
         rule_id := rule_id
         client_ip := client_ip
         listen_port := listen_port
         started_at := nowStr
         ended_at := some nowStr
         bytes_up := 0
         bytes_down := 0
         blocked := true
         reason := some reason }]) }

/-- The `active_by_ip` decrement in `record_connection_end`:
`saturating_sub(1)` and key removal at zero (no-op when the key is absent). -/
def dec_by_ip (m : List (String × Nat)) (ip : String) : List (String × Nat) :=
  match mapGet m ip with
  | none => m
  | some c => if c - 1 = 0 then mapDrop m ip else mapPut m ip (c - 1)

/-- `record_connection_end`: remove the active record (a no-op when the id
is unknown), decrement the per-IP counter, append a history entry and trim. -/
def record_connection_end (s : AppState) (nowStr : String) (conn_id : Nat)
    (bytes_up bytes_down : Nat) (reason : Option String) : AppState :=
  match mapGet s.active conn_id with
  | none => s
  | some conn =>
    { s with
      active := mapDrop s.active conn_id
      active_by_ip := dec_by_ip s.active_by_ip conn.client_ip
      history := trim_history (s.history ++
        [{ id := conn_id
           rule_id := conn.rule_id
           client_ip := conn.client_ip
           listen_port := conn.listen_port
           started_at := conn.started_at
           ended_at := some nowStr
           bytes_up := bytes_up
           bytes_down := bytes_down
           blocked := false
           reason := reason }]) }

/-- `update_connection_bytes`: overwrite the public byte counter of an
active record with the caller's running total. -/
def update_connection_bytes (s : AppState) (nowStr : String)
    (conn_id bytes_transferred : Nat) : AppState :=
  match mapGet s.active conn_id with
  | none => s
  | some conn =>
    let conn' := { conn with bytes_transferred := bytes_transferred, last_update := nowStr }
    { s with active := mapPut s.active conn_id conn' }

/-! ## Snapshot and load (`snapshot_state` / `load_state`, `app.rs`) -/

/-- The comparator of the `sort_by` calls in `snapshot_state`: order by
port, then lexicographically by the string field. -/
def entry_le (pa pb : Nat) (sa sb : String) : Bool :=
  decide (pa < pb ∨ (pa = pb ∧ sa ≤ sb))

/-- Flatten a port-indexed map of string sets into its persisted entry
list (one `(string, port)` pair per element), in map iteration order.
`HashSet` iteration order is arbitrary; `Finset.sort` is the deterministic
stand-in used for the elementwise write-outs. -/
def flatten_port_map (m : List (Nat × Finset String)) : List (String × Nat) :=
  (m.map (fun e => (e.2.sort (· ≤ ·)).map (fun v => (v, e.1)))).flatten

/-- `snapshot_state` from `app.rs`: the persisted document built from the
in-memory state — set-valued fields are written out elementwise, the
port-indexed maps flattened and sorted by `(port, string)`. -/
def snapshot_state (s : AppState) : PersistedState :=
  { rules := s.rules
    blocklist := s.blocklist.sort (· ≤ ·)
    port_blocklist :=
      ((flatten_port_map s.port_blocklist).mergeSort
        (fun a b => entry_le a.2 b.2 a.1 b.1)).map (fun e => PortEntry.mk e.1 e.2)
    allowlist := s.allowlist.sort (· ≤ ·)
    allowlist_ports :=
      ((flatten_port_map s.allowlist_ports).mergeSort
        (fun a b => entry_le a.2 b.2 a.1 b.1)).map (fun e => PortEntry.mk e.1 e.2)
    allowlist_enabled := s.allowlist_enabled
    geo_blocklist := s.geo_blocklist.sort (· ≤ ·)
    geo_port_blocklist :=
      ((flatten_port_map s.geo_port_blocklist).mergeSort
        (fun a b => entry_le a.2 b.2 a.1 b.1)).map (fun e => GeoPortEntry.mk e.1 e.2)
    history := s.history
    rate_limit := s.rate_limit }

/-- The map-building loops of `load_state`
(`entry(port).or_insert_with(HashSet::new).insert(value)` per entry). -/
def build_port_map (entries : List (String × Nat)) : List (Nat × Finset String) :=
  entries.foldl (fun m e => map_insert_set m e.2 e.1) []

/-- `load_state` from `app.rs` (the pure part, from an already-parsed
persisted document; the `geo_blocklist` values and the countries of
`geo_port_blocklist` are uppercased while loading).  `next_rule_id` and
`next_conn_id` become `max(seen ids) + 1` (`1` when none);
runtime-only collections start empty and no geo DB is attached yet. -/
def load_state (p : PersistedState) : AppState :=
  { rules := p.rules
    blocklist := p.blocklist.toFinset
    port_blocklist := build_port_map (p.port_blocklist.map (fun e => (e.ip, e.port)))
    allowlist := p.allowlist.toFinset
    allowlist_ports := build_port_map (p.allowlist_ports.map (fun e => (e.ip, e.port)))
    allowlist_enabled := p.allowlist_enabled
    geo_blocklist := (p.geo_blocklist.map to_upper).toFinset
    geo_port_blocklist :=
      build_port_map (p.geo_port_blocklist.map (fun e => (to_upper e.country, e.port)))
    geo_db := none
    history := p.history
    rate_limit := p.rate_limit
    active := []
    active_by_ip := []
    rate_counters := []
    next_rule_id := (p.rules.map (fun r => r.id)).foldl max 0 + 1
    next_conn_id := (p.history.map (fun l => l.id)).foldl max 0 + 1 }

/-! ## Rule engine (`create_rule`, `app.rs` lines 431-480) -/

/-- The `rules.iter_mut().find(|rule| rule.id == id)` mutation pattern:
update the first rule with the given id, leave the rest untouched. -/
def set_rule_enabled (rules : List ProxyRule) (rule_id : Nat) (v : Bool) : List ProxyRule :=
  match rules with
  | [] => []
  | r :: rest =>
    if r.id == rule_id then { r with enabled := v } :: rest
    else r :: set_rule_enabled rest rule_id v

/-- `disable_rule_after_start_failure`: flip the rule's `enabled` to false
(the rule itself stays in the list); the caller persists the result. -/
def disable_rule_after_start_failure (s : AppState) (rule_id : Nat) : AppState :=
  { s with rules := set_rule_enabled s.rules rule_id false }

/-- `create_rule` from `app.rs` as a state transition.  The source first
validates non-emptiness, then appends the rule (id from `next_rule_id`)
and persists, and only afterwards starts listeners when enabled; a start
failure flips the freshly created rule to disabled via
`disable_rule_after_start_failure` and surfaces the error.  Socket binding
is environmental and abstracted as succeeding, so the deterministic start
failure modelled here is exactly a failing `expand_listen_targets`. -/
def create_rule (s : AppState) (nowStr : String) (listen_addr target_addr : String)
    (enabled : Bool) (protocol : ProtocolMode) : Except String ProxyRule × AppState :=
  if (rust_trim listen_addr).isEmpty ∨ (rust_trim target_addr).isEmpty then
    (.error "listen_addr and target_addr are required", s)
  else
    let rule : ProxyRule :=
      { id := s.next_rule_id
        listen_addr := rust_trim listen_addr
        target_addr := rust_trim target_addr
        enabled := enabled
        created_at := nowStr
        protocol := protocol }
    let s1 := { s with next_rule_id := s.next_rule_id + 1, rules := s.rules ++ [rule] }
    if enabled then
      match expand_listen_targets rule.listen_addr rule.target_addr with
      | .error err => (.error s!"Listener failed: {err}", disable_rule_after_start_failure s1 rule.id)
      | .ok _ => (.ok rule, s1)
    else
      (.ok rule, s1)

/-! ## Policy-list mutation handlers (`add_block`, `add_allow`,
`add_geo_block`, `remove_geo_block`; `geo::normalize_country`)

Each handler validates its inputs before touching any state; the
successful mutation paths are modelled as well so that the no-mutation
property of the failure paths is about the same function that mutates. -/

/-- Rust `str::len` — the UTF-8 byte length used by
`normalize_country`'s length check. -/
def utf8_len (s : String) : Nat := (s.toList.map Char.utf8Size).sum

/-- `geo::normalize_country`: trim, require exactly two bytes, require
ASCII letters, uppercase. -/
def normalize_country (value : String) : Except String String :=
  let trimmed := rust_trim value
  if utf8_len trimmed ≠ 2 then .error "Country code must be 2 letters"
  else if ¬ trimmed.toList.all (fun ch => ch.isAlpha) then .error "Country code must be letters"
  else .ok (to_upper trimmed)

/-- `add_block` from `app.rs`: reject an empty IP, then reject port 0,
then insert into the per-port or the global blocklist. -/
def add_block (s : AppState) (ip : String) (port? : Option Nat) :
    Except String Unit × AppState :=
  if (rust_trim ip).isEmpty then (.error "IP is required", s)
  else if port? = some 0 then (.error "Port must be between 1 and 65535", s)
  else
    match port? with
    | some port =>
      (.ok (), { s with port_blocklist := map_insert_set s.port_blocklist port (rust_trim ip) })
    | none => (.ok (), { s with blocklist := insert (rust_trim ip) s.blocklist })

/-- `add_allow` from `app.rs`: same validation as `add_block`, inserting
into the allowlists. -/
def add_allow (s : AppState) (ip : String) (port? : Option Nat) :
    Except String Unit × AppState :=
  if (rust_trim ip).isEmpty then (.error "IP is required", s)
  else if port? = some 0 then (.error "Port must be between 1 and 65535", s)
  else
    match port? with
    | some port =>
      (.ok (), { s with allowlist_ports := map_insert_set s.allowlist_ports port (rust_trim ip) })
    | none => (.ok (), { s with allowlist := insert (rust_trim ip) s.allowlist })

/-- `add_geo_block` from `app.rs`: normalize the country code first (its
error is surfaced before anything else), then reject port 0, then insert. -/
def add_geo_block (s : AppState) (country : String) (port? : Option Nat) :
    Except String Unit × AppState :=
  match normalize_country country with
  | .error e => (.error e, s)
  | .ok c =>
    if port? = some 0 then (.error "Port must be between 1 and 65535", s)
    else
      match port? with
      | some port =>
        (.ok (), { s with geo_port_blocklist := map_insert_set s.geo_port_blocklist port c })
      | none => (.ok (), { s with geo_blocklist := insert c s.geo_blocklist })

/-- `remove_geo_block` from `app.rs`: normalize the country code before
any mutation; on success remove it, dropping a per-port set that becomes
empty. -/
def remove_geo_block (s : AppState) (country : String) (port? : Option Nat) :
    Except String Unit × AppState :=
  match normalize_country country with
  | .error e => (.error e, s)
  | .ok c =>
    match port? with
    | some port =>
      match mapGet s.geo_port_blocklist port with
      | some countries =>
        let countries' := countries.erase c
        if countries' = ∅ then
          (.ok (), { s with geo_port_blocklist := mapDrop s.geo_port_blocklist port })
        else
          (.ok (), { s with geo_port_blocklist := mapPut s.geo_port_blocklist port countries' })
      | none => (.ok (), s)
    | none => (.ok (), { s with geo_blocklist := s.geo_blocklist.erase c })

/-! ## TCP relay byte tracking (`copy_bidirectional_with_tracking`)

One pump direction of `copy_bidirectional_with_tracking` modelled over an
abstract schedule of successful reads: each event carries the bytes read
and the wall-clock milliseconds that passed since the previous check of
`last_update.elapsed()`.  After forwarding a read, the pump publishes its
direction-local running total through `update_connection_bytes` when at
least 100 ms elapsed since the previous publish or when the running total
is an exact multiple of 1 MiB, resetting the timer when it publishes. -/

structure PumpState where
  total_bytes : Nat
  since_update : Nat
  updates : List Nat
deriving Repr, DecidableEq

/-- One loop iteration of a pump on a successful `read` of `n` bytes, with
`dt` milliseconds elapsed since the last timer reset. -/
def pump_step (st : PumpState) (ev : Nat × Nat) : PumpState :=
  let total := st.total_bytes + ev.1
  let elapsed := st.since_update + ev.2
  if 100 ≤ elapsed ∨ total % (1024 * 1024) = 0 then
    { total_bytes := total, since_update := 0, updates := st.updates ++ [total] }
  else
    { total_bytes := total, since_update := elapsed, updates := st.updates }

/-- A whole pump run from a fresh connection (zero counter, fresh timer). -/
def run_pump (evs : List (Nat × Nat)) : PumpState :=
  evs.foldl pump_step { total_bytes := 0, since_update := 0, updates := [] }

/-! ## Operation traces

The state-mutating registry and rule operations, as a trace of events the
control plane and listeners may interleave.  Each constructor carries the
environmental data of one call (wall clock, formatted timestamps,
payloads). -/

inductive RegistryOp where
  | register (now : Nat) (nowStr : String) (rule_id : Nat) (client_ip : String)
      (listen_port : Option Nat)
  | finalize (nowStr : String) (conn_id : Nat) (bytes_up bytes_down : Nat)
      (reason : Option String)
  | blocked (nowStr : String) (rule_id : Nat) (listen_port : Option Nat)
      (client_ip : String) (reason : String)
  | create (nowStr listen_addr target_addr : String) (enabled : Bool)
      (protocol : ProtocolMode)

/-- The state transition of one traced operation. -/
def apply_op (s : AppState) : RegistryOp → AppState
  | .register now nowStr rule_id ip port => (register_connection s now nowStr rule_id ip port).2
  | .finalize nowStr conn_id bu bd reason => record_connection_end s nowStr conn_id bu bd reason
  | .blocked nowStr rule_id port ip reason => record_blocked s nowStr rule_id port ip reason
  | .create nowStr la ta enabled proto => (create_rule s nowStr la ta enabled proto).2

/-- Run a trace of operations left to right. -/
def run_ops (s : AppState) (ops : List RegistryOp) : AppState := ops.foldl apply_op s

/-- The connection ids a trace allocates, in order, each tagged with
whether it was allocated by `record_blocked` (`true`) or by a successful
`register_connection` (`false`). -/
def conn_allocs (s : AppState) : List RegistryOp → List (Bool × Nat)
  | [] => []
  | op :: rest =>
    let here : List (Bool × Nat) :=
      match op with
      | .register now nowStr rule_id ip port =>
        match (register_connection s now nowStr rule_id ip port).1 with
        | .ok conn_id => [(false, conn_id)]
        | .error _ => []
      | .blocked _ _ _ _ _ => [(true, s.next_conn_id)]
      | _ => []
    here ++ conn_allocs (apply_op s op) rest

/-- The connection ids allocated by successful admissions only. -/
def register_conn_allocs (s : AppState) (ops : List RegistryOp) : List Nat :=
  ((conn_allocs s ops).filter (fun a => a.1 == false)).map (fun a => a.2)

/-- The rule ids a trace allocates through `create_rule` (an id is consumed
whenever the rule value is constructed, i.e. whenever the emptiness
validation passes — also when listener startup fails afterwards). -/
def rule_allocs (s : AppState) : List RegistryOp → List Nat
  | [] => []
  | op :: rest =>
    let here : List Nat :=
      match op with
      | .create _ la ta _ _ =>
        if (rust_trim la).isEmpty ∨ (rust_trim ta).isEmpty then [] else [s.next_rule_id]
      | _ => []
    here ++ rule_allocs (apply_op s op) rest

/-! ## Concrete states and traces used as witness inputs -/

/-- A small policy state: global blocklist holds `10.0.0.3`, the port-443
allowlist holds only `10.0.0.2`. -/
def policyState : AppState :=
  { rules := []
    blocklist := {"10.0.0.3"}
    port_blocklist := [(8080, {"10.0.0.9"})]
    allowlist := ∅
    allowlist_ports := [(443, {"10.0.0.2"})]
    allowlist_enabled := false
    geo_blocklist := ∅
    geo_port_blocklist := []
    geo_db := none
    history := []
    rate_limit := RateLimitConfig.default
    active := []
    active_by_ip := []
    rate_counters := []
    next_rule_id := 1
    next_conn_id := 1 }

/-- A state with one active connection (id 5 from `9.9.9.9`), as after one
accepted admission. -/
def oneActiveState : AppState :=
  { policyState with
    blocklist := ∅
    allowlist_ports := []
    port_blocklist := []
    active := [(5, { conn_id := 5, rule_id := 2, client_ip := "9.9.9.9",
                     listen_port := some 7000, started_at := "t1",
                     bytes_transferred := 0, last_update := "t1" })]
    active_by_ip := [("9.9.9.9", 1)]
    next_conn_id := 6 }

/-- A short trace: one accepted admission, one rejection logged by
`record_blocked`, one rule creation, one finalization. -/
def exampleTrace : List RegistryOp :=
  [.register 0 "t1" 2 "9.9.9.9" (some 7000),
   .blocked "t2" 2 (some 7000) "10.0.0.3" "Blocked by rule",
   .create "t3" "0.0.0.0:7000" "127.0.0.1:7001" false .tcp,
   .finalize "t4" 1 10 20 none]

/-- The connection-registry consistency invariant maintained by
`register_connection` / `record_connection_end`: active-map and counter-map
keys are unique, each per-IP counter equals the number of active
connections from that IP, stored counters are positive, active ids are
below the id counter, and the counter values sum to the active-map size. -/
structure RegistryInv (s : AppState) : Prop where
  active_nodup : (s.active.map (fun e => e.1)).Nodup
  abi_nodup : (s.active_by_ip.map (fun e => e.1)).Nodup
  abi_accurate : ∀ ip, (mapGet s.active_by_ip ip).getD 0
      = s.active.countP (fun e => e.2.client_ip == ip)
  abi_pos : ∀ e ∈ s.active_by_ip, 0 < e.2
  active_id_lt : ∀ e ∈ s.active, e.1 < s.next_conn_id
  sum_eq : (s.active_by_ip.map (fun e => e.2)).sum = s.active.length

/-- Facts true of every reachable in-memory state that the snapshot/load
round trip relies on: the port-indexed maps have unique keys and no empty
sets (emptied per-port sets are removed by the remove handlers and are
never created empty), and geo country codes are stored uppercased (they
are uppercased both on load and on insertion). -/
structure SnapshotWF (s : AppState) : Prop where
  pb_keys_nodup : (s.port_blocklist.map (fun e => e.1)).Nodup
  pb_nonempty : ∀ e ∈ s.port_blocklist, e.2 ≠ ∅
  ap_keys_nodup : (s.allowlist_ports.map (fun e => e.1)).Nodup
  ap_nonempty : ∀ e ∈ s.allowlist_ports, e.2 ≠ ∅
  gp_keys_nodup : (s.geo_port_blocklist.map (fun e => e.1)).Nodup
  gp_nonempty : ∀ e ∈ s.geo_port_blocklist, e.2 ≠ ∅
  gp_upper : ∀ e ∈ s.geo_port_blocklist, ∀ c ∈ e.2, to_upper c = c
  geo_upper : ∀ c ∈ s.geo_blocklist, to_upper c = c

/-! # Theorems -/

/-! ## Association-list helper lemmas -/

theorem mapGet_nil {K α : Type _} [BEq K] (k : K) : mapGet ([] : List (K × α)) k = none := rfl

theorem mapGet_cons {K α : Type _} [BEq K] (k₀ : K) (v₀ : α) (m : List (K × α)) (k : K) :
    mapGet ((k₀, v₀) :: m) k = if k₀ == k then some v₀ else mapGet m k := by
  by_cases h : k₀ == k <;> simp [mapGet, List.find?_cons, h]

theorem mapGet_mapPut {K α : Type _} [BEq K] [LawfulBEq K]
    (m : List (K × α)) (k : K) (v : α) (k' : K) :
    mapGet (mapPut m k v) k' = if k == k' then some v else mapGet m k' := by
  induction m with
  | nil => simp [mapPut, mapGet_cons]
  | cons e rest ih =>
    obtain ⟨k₀, v₀⟩ := e
    by_cases h : k₀ == k
    · have hk : k₀ = k := by simpa using h
      subst hk
      by_cases h' : k₀ == k'
      · have : k₀ = k' := by simpa using h'
        subst this
        simp [mapPut, mapGet_cons]
      · simp [mapPut, mapGet_cons, h']
    · by_cases h' : k₀ == k'
      · have hk : k₀ = k' := by simpa using h'
        subst hk
        have hne : ¬ k == k₀ := fun hc => h (by simpa using (beq_iff_eq.mp hc).symm)
        simp [mapPut, h, mapGet_cons, hne]
      · simp [mapPut, h, mapGet_cons, h', ih]

theorem mapPut_of_get_none {K α : Type _} [BEq K] (m : List (K × α)) (k : K) (v : α)
    (h : mapGet m k = none) : mapPut m k v = m ++ [(k, v)] := by
  induction m with
  | nil => rfl
  | cons e rest ih =>
    rw [mapGet_cons e.1 e.2] at h
    by_cases he : e.1 == k
    · simp [he] at h
    · simp [he] at h
      simp [mapPut, he, ih h]

theorem keys_mapPut_of_get_some {K α : Type _} [BEq K] [LawfulBEq K]
    (m : List (K × α)) (k : K) (v : α) (w : α) (h : mapGet m k = some w) :
    (mapPut m k v).map (fun e => e.1) = m.map (fun e => e.1) := by
  induction m with
  | nil => simp [mapGet] at h
  | cons e rest ih =>
    rw [mapGet_cons e.1 e.2] at h
    by_cases he : e.1 == k
    · have : e.1 = k := by simpa using he
      simp [mapPut, he, this]
    · simp [he] at h
      simp [mapPut, he, ih h]

theorem mem_mapPut {K α : Type _} [BEq K] (m : List (K × α)) (k : K) (v : α) (e : K × α)
    (h : e ∈ mapPut m k v) : e = (k, v) ∨ e ∈ m := by
  induction m with
  | nil => simpa [mapPut] using h
  | cons e₀ rest ih =>
    by_cases he : e₀.1 == k
    · simp only [mapPut, he, if_pos] at h
      rcases List.mem_cons.mp h with h | h
      · exact Or.inl h
      · exact Or.inr (List.mem_cons_of_mem _ h)
    · simp only [mapPut, he, if_neg, Bool.false_eq_true, not_false_iff, List.mem_cons] at h
      rcases h with h | h
      · exact Or.inr (by rw [h]; exact List.mem_cons_self e₀ rest)
      · rcases ih h with h' | h'
        · exact Or.inl h'
        · exact Or.inr (List.mem_cons_of_mem _ h')

theorem values_sum_mapPut_some {K : Type _} [BEq K] (m : List (K × Nat)) (k : K) (v c : Nat)
    (h : mapGet m k = some c) :
    ((mapPut m k v).map (fun e => e.2)).sum + c = (m.map (fun e => e.2)).sum + v := by
  induction m with
  | nil => simp [mapGet] at h
  | cons e rest ih =>
    rw [mapGet_cons e.1 e.2] at h
    by_cases he : e.1 == k
    · simp [he] at h
      simp [mapPut, he, h]
      omega
    · simp [he] at h
      simp [mapPut, he]
      have := ih h
      omega

theorem values_sum_mapPut_none {K : Type _} [BEq K] (m : List (K × Nat)) (k : K) (v : Nat)
    (h : mapGet m k = none) :
    ((mapPut m k v).map (fun e => e.2)).sum = (m.map (fun e => e.2)).sum + v := by
  rw [mapPut_of_get_none m k v h]
  simp

theorem mapGet_eq_none_iff {K α : Type _} [BEq K] (m : List (K × α)) (k : K) :
    mapGet m k = none ↔ ∀ e ∈ m, ¬ e.1 == k := by
  induction m with
  | nil => simp [mapGet]
  | cons e rest ih =>
    rw [mapGet_cons e.1 e.2]
    by_cases he : e.1 == k <;> simp [he, ih]

theorem mem_of_mapGet_some {K α : Type _} [BEq K] [LawfulBEq K] (m : List (K × α)) (k : K) (v : α)
    (h : mapGet m k = some v) : (k, v) ∈ m := by
  induction m with
  | nil => simp [mapGet] at h
  | cons e rest ih =>
    rw [mapGet_cons e.1 e.2] at h
    by_cases he : e.1 == k
    · have hk : e.1 = k := by simpa using he
      simp [he] at h
      have : e = (k, v) := by
        cases e
        simp_all
      rw [← this]
      exact List.mem_cons_self e rest
    · simp [he] at h
      exact List.mem_cons_of_mem _ (ih h)

theorem mapDrop_rest_of_nodup {K α : Type _} [BEq K] [LawfulBEq K]
    (rest : List (K × α)) (x : K) (k : K)
    (h1 : x ∉ rest.map (fun e => e.1)) (hx : x = k) : mapDrop rest k = rest := by
  apply List.filter_eq_self.mpr
  intro a ha
  have hak : a.1 ≠ k := by
    intro hc
    apply h1
    rw [hx, ← hc]
    exact List.mem_map_of_mem (fun e => e.1) ha
  simpa using hak

theorem mapGet_mapDrop {K α : Type _} [BEq K] [LawfulBEq K] (m : List (K × α)) (k k' : K) :
    mapGet (mapDrop m k) k' = if k == k' then none else mapGet m k' := by
  by_cases h' : k == k'
  · have hk : k = k' := by simpa using h'
    subst hk
    rw [if_pos h', mapGet_eq_none_iff]
    intro e he
    have := List.of_mem_filter he
    simpa using this
  · rw [if_neg h']
    induction m with
    | nil => rfl
    | cons e rest ih =>
      by_cases he : e.1 == k
      · have hek : e.1 = k := by simpa using he
        have hne : ¬ (e.1 == k') = true := by
          intro hc
          apply h'
          have : e.1 = k' := by simpa using hc
          rw [← hek, this]
          exact beq_self_eq_true k'
        show mapGet (List.filter _ (e :: rest)) k' = _
        rw [List.filter_cons, if_neg (by simp [he]), mapGet_cons e.1 e.2, if_neg hne]
        exact ih
      · show mapGet (List.filter _ (e :: rest)) k' = _
        rw [List.filter_cons, if_pos (by simp [he]), mapGet_cons e.1 e.2, mapGet_cons e.1 e.2]
        by_cases hc : e.1 == k'
        · rw [if_pos hc, if_pos hc]
        · rw [if_neg hc, if_neg hc]
          exact ih

theorem mem_mapDrop {K α : Type _} [BEq K] (m : List (K × α)) (k : K) (e : K × α)
    (h : e ∈ mapDrop m k) : e ∈ m := List.mem_of_mem_filter h

theorem keys_mapDrop_sublist {K α : Type _} [BEq K] (m : List (K × α)) (k : K) :
    ((mapDrop m k).map (fun e => e.1)).Sublist (m.map (fun e => e.1)) :=
  (List.filter_sublist m).map (fun e => e.1)

theorem length_mapDrop {K α : Type _} [BEq K] [LawfulBEq K] (m : List (K × α)) (k : K) (v : α)
    (hnd : (m.map (fun e => e.1)).Nodup) (h : mapGet m k = some v) :
    (mapDrop m k).length + 1 = m.length := by
  induction m with
  | nil => simp [mapGet] at h
  | cons e rest ih =>
    rw [List.map_cons, List.nodup_cons] at hnd
    obtain ⟨h1, h2⟩ := hnd
    rw [mapGet_cons e.1 e.2] at h
    by_cases he : e.1 == k
    · have hek : e.1 = k := by simpa using he
      show (List.filter _ (e :: rest)).length + 1 = (e :: rest).length
      rw [List.filter_cons, if_neg (by simp [he])]
      have hfr : mapDrop rest k = rest := mapDrop_rest_of_nodup rest e.1 k h1 hek
      rw [show List.filter (fun e => !(e.1 == k)) rest = rest from hfr]
      simp
    · rw [if_neg he] at h
      show (List.filter _ (e :: rest)).length + 1 = (e :: rest).length
      rw [List.filter_cons, if_pos (by simp [he]), List.length_cons, List.length_cons,
        ← ih h2 h]
      rfl

theorem values_sum_mapDrop {K : Type _} [BEq K] [LawfulBEq K] (m : List (K × Nat)) (k : K) (c : Nat)
    (hnd : (m.map (fun e => e.1)).Nodup) (h : mapGet m k = some c) :
    ((mapDrop m k).map (fun e => e.2)).sum + c = (m.map (fun e => e.2)).sum := by
  induction m with
  | nil => simp [mapGet] at h
  | cons e rest ih =>
    rw [List.map_cons, List.nodup_cons] at hnd
    obtain ⟨h1, h2⟩ := hnd
    rw [mapGet_cons e.1 e.2] at h
    by_cases he : e.1 == k
    · have hek : e.1 = k := by simpa using he
      rw [if_pos he] at h
      have hfr : mapDrop rest k = rest := mapDrop_rest_of_nodup rest e.1 k h1 hek
      show ((List.filter _ (e :: rest)).map _).sum + c = _
      rw [List.filter_cons, if_neg (by simp [he]),
        show List.filter (fun e => !(e.1 == k)) rest = rest from hfr]
      simp only [List.map_cons, List.sum_cons]
      have hec : e.2 = c := by simpa using h
      omega
    · rw [if_neg he] at h
      show ((List.filter _ (e :: rest)).map _).sum + c = _
      rw [List.filter_cons, if_pos (by simp [he])]
      simp only [List.map_cons, List.sum_cons]
      have := ih h2 h
      simp only [mapDrop] at this
      omega

/-! ## History trimming -/

theorem trim_history_eq_drop (h : List ConnectionLog) :
    trim_history h = h.drop (h.length - MAX_HISTORY) := by
  unfold trim_history
  by_cases hl : h.length > MAX_HISTORY
  · simp [hl]
  · have : h.length - MAX_HISTORY = 0 := by omega
    simp [hl, this]

theorem trim_history_length (h : List ConnectionLog) :
    (trim_history h).length = min h.length MAX_HISTORY := by
  rw [trim_history_eq_drop, List.length_drop]
  omega

/-- Claim C3: after every history-appending operation (`record_blocked`,
and `record_connection_end` when the connection id is known), the history
holds at most `MAX_HISTORY` (10,000) entries — exactly
`min (previous + 1) 10000` — and equals a suffix of the appended list
obtained by dropping the oldest entries first (FIFO), leaving the most
recent ones. -/
theorem history_bound_after_append (s : AppState) (nowStr : String) (rule_id : Nat)
    (listen_port : Option Nat) (client_ip reason : String) (conn_id bu bd : Nat)
    (reason2 : Option String) :
    ((record_blocked s nowStr rule_id listen_port client_ip reason).history.length ≤ MAX_HISTORY
      ∧ (record_blocked s nowStr rule_id listen_port client_ip reason).history.length
          = min (s.history.length + 1) MAX_HISTORY
      ∧ ∃ e, (record_blocked s nowStr rule_id listen_port client_ip reason).history
          = (s.history ++ [e]).drop (s.history.length + 1 - MAX_HISTORY))
    ∧ (∀ conn, mapGet s.active conn_id = some conn →
        (record_connection_end s nowStr conn_id bu bd reason2).history.length ≤ MAX_HISTORY
        ∧ (record_connection_end s nowStr conn_id bu bd reason2).history.length
            = min (s.history.length + 1) MAX_HISTORY
        ∧ ∃ e, (record_connection_end s nowStr conn_id bu bd reason2).history
            = (s.history ++ [e]).drop (s.history.length + 1 - MAX_HISTORY)) := by
  constructor
  · have hb : (record_blocked s nowStr rule_id listen_port client_ip reason).history
        = trim_history (s.history ++
            [{ id := s.next_conn_id, rule_id := rule_id, client_ip := client_ip,
               listen_port := listen_port, started_at := nowStr, ended_at := some nowStr,
               bytes_up := 0, bytes_down := 0, blocked := true, reason := some reason }]) := rfl
    refine ⟨?_, ?_, ?_⟩
    · rw [hb, trim_history_length]
      exact min_le_right _ _
    · rw [hb, trim_history_length, List.length_append]
      rfl
    · refine ⟨⟨s.next_conn_id, rule_id, client_ip, listen_port, nowStr, some nowStr, 0, 0, true, some reason⟩, ?_⟩
      rw [hb, trim_history_eq_drop, List.length_append]
      rfl
  · intro conn hconn
    have hb : (record_connection_end s nowStr conn_id bu bd reason2).history
        = trim_history (s.history ++
            [{ id := conn_id, rule_id := conn.rule_id, client_ip := conn.client_ip,
               listen_port := conn.listen_port, started_at := conn.started_at,
               ended_at := some nowStr, bytes_up := bu, bytes_down := bd,
               blocked := false, reason := reason2 }]) := by
      unfold record_connection_end
      rw [hconn]
    refine ⟨?_, ?_, ?_⟩
    · rw [hb, trim_history_length]
      exact min_le_right _ _
    · rw [hb, trim_history_length, List.length_append]
      rfl
    · refine ⟨⟨conn_id, conn.rule_id, conn.client_ip, conn.listen_port, conn.started_at, some nowStr, bu, bd, false, reason2⟩, ?_⟩
      rw [hb, trim_history_eq_drop, List.length_append]
      rfl

/-- Witness for the history-bound theorem on a state with a known active
connection. -/
theorem history_bound_after_append_witness :
    (record_connection_end oneActiveState "t9" 5 3 4 none).history.length ≤ MAX_HISTORY :=
  ((history_bound_after_append oneActiveState "t9" 2 (some 7000) "9.9.9.9" "r" 5 3 4 none).2
    { conn_id := 5, rule_id := 2, client_ip := "9.9.9.9", listen_port := some 7000,
      started_at := "t1", bytes_transferred := 0, last_update := "t1" } (by decide)).1

/-- Claim C4 (evidence): `parse_ports` accepts the single port token `"0"`
(returning `Ok([0])`, which `expand_listen_targets` turns into a
`ListenTarget` listening on port 0), while every range token including 0
is rejected — the zero check exists only in the range branch. -/
theorem parse_ports_zero_single_port :
    parse_ports "0" = .ok [0]
    ∧ expand_listen_targets "127.0.0.1:0" "10.0.0.1:80"
        = .ok [{ listen_addr := "127.0.0.1:0", listen_port := 0, target_addr := "10.0.0.1:80" }]
    ∧ parse_ports "0-0" = .error "Port range cannot include 0"
    ∧ parse_ports "0-5" = .error "Port range cannot include 0"
    ∧ parse_ports "1-0" = .error "Port range cannot include 0" :=
  ⟨by decide, by decide, by decide, by decide, by decide⟩

/-- Claim C9 counterexample: two quick reads (no 100 ms elapsed) take the
direction-local counter from 0 to 1,048,570 and then to 1,048,590 —
crossing the 1 MiB boundary at 1,048,576 — yet no update is published,
because the code tests `total % 1 MiB == 0`, not boundary crossing. -/
theorem pump_boundary_crossing_without_update :
    run_pump [(1048570, 0), (20, 0)]
      = { total_bytes := 1048590, since_update := 0, updates := [] }
    ∧ 1048570 < 1024 * 1024 ∧ 1024 * 1024 ≤ 1048590 :=
  ⟨by decide, by decide, by decide⟩

theorem pump_step_total (st : PumpState) (ev : Nat × Nat) :
    (pump_step st ev).total_bytes = st.total_bytes + ev.1 := by
  by_cases hc : 100 ≤ st.since_update + ev.2 ∨ (st.total_bytes + ev.1) % (1024 * 1024) = 0
  · simp only [pump_step, if_pos hc]
  · simp only [pump_step, if_neg hc]

theorem pump_updates_from (evs : List (Nat × Nat)) : ∀ (st : PumpState) (u : Nat),
    u ∈ (evs.foldl pump_step st).updates →
    u ∈ st.updates
    ∨ ∃ k, k ≤ evs.length ∧ u = st.total_bytes + ((evs.take k).map (fun e => e.1)).sum := by
  induction evs with
  | nil => exact fun st u h => Or.inl h
  | cons ev rest ih =>
    intro st u h
    rcases ih (pump_step st ev) u h with h' | ⟨k, hk, he⟩
    · by_cases hc : 100 ≤ st.since_update + ev.2 ∨ (st.total_bytes + ev.1) % (1024 * 1024) = 0
      · simp only [pump_step, if_pos hc] at h'
        rcases List.mem_append.mp h' with h'' | h''
        · exact Or.inl h''
        · refine Or.inr ⟨1, by simp, ?_⟩
          simpa using h''
      · simp only [pump_step, if_neg hc] at h'
        exact Or.inl h'
    · refine Or.inr ⟨k + 1, by simpa using Nat.succ_le_succ hk, ?_⟩
      rw [he, pump_step_total]
      simp [List.take_succ_cons]
      omega

/-- Claim C9 (as amended): a pump publishes its direction-local running
total exactly when, at the end of a read, at least 100 ms have elapsed
since the last publish or the running total is an exact multiple of 1 MiB
(not on every boundary crossing); the timer resets on publishing, and
every published value is a prefix sum of the pump's reads. -/
theorem pump_update_exact_multiples :
    (∀ st ev, 100 ≤ st.since_update + ev.2 ∨ (st.total_bytes + ev.1) % (1024 * 1024) = 0 →
      pump_step st ev = { total_bytes := st.total_bytes + ev.1, since_update := 0,
                          updates := st.updates ++ [st.total_bytes + ev.1] })
    ∧ (∀ st ev, ¬ (100 ≤ st.since_update + ev.2 ∨ (st.total_bytes + ev.1) % (1024 * 1024) = 0) →
      pump_step st ev = { total_bytes := st.total_bytes + ev.1,
                          since_update := st.since_update + ev.2, updates := st.updates })
    ∧ (∀ evs u, u ∈ (run_pump evs).updates →
      ∃ k, k ≤ evs.length ∧ u = ((evs.take k).map (fun e => e.1)).sum) := by
  refine ⟨?_, ?_, ?_⟩
  · intro st ev hc
    simp only [pump_step, if_pos hc]
  · intro st ev hc
    simp only [pump_step, if_neg hc]
  · intro evs u h
    rcases pump_updates_from evs { total_bytes := 0, since_update := 0, updates := [] } u h with
      h' | ⟨k, hk, he⟩
    · simp at h'
    · exact ⟨k, hk, by simpa using he⟩

/-- Witness for the amended pump-update theorem: a 150 ms gap publishes the
running total 8192; a quiet 8192-byte read publishes nothing. -/
theorem pump_update_exact_multiples_witness :
    pump_step { total_bytes := 0, since_update := 0, updates := [] } (8192, 150)
      = { total_bytes := 8192, since_update := 0, updates := [8192] }
    ∧ pump_step { total_bytes := 0, since_update := 0, updates := [] } (8192, 50)
      = { total_bytes := 8192, since_update := 50, updates := [] } :=
  ⟨pump_update_exact_multiples.1 _ (8192, 150) (by decide),
   pump_update_exact_multiples.2.1 _ (8192, 50) (by decide)⟩

/-! ## Claim C1: admission evaluation order -/

/-- Claim C1: `check_allow` evaluates its policy stages in exactly the
source order — global allowlist (when enabled), per-port allowlist,
per-port geo blocklist then global geo blocklist (only with a loaded geo
DB and a resolving IP), global blocklist, per-port blocklist, total-active
cap, per-IP cap, rate window — short-circuiting on the first failure with
that stage's reason string.  In particular (final conjunct) an IP absent
from an existing, non-empty per-port allowlist and present in the global
blocklist is rejected with the allowlist reason, not the blocklist
reason.  (A per-port entry exists iff it is non-empty in every reachable
state, since emptied per-port sets are removed by the remove handlers and
never created empty.) -/
theorem check_allow_evaluation_order (s : AppState) (now : Nat) (ip : String)
    (port? : Option Nat) :
    (s.allowlist_enabled = true → ip ∉ s.allowlist →
      check_allow s now ip port? = (some "Not in allowlist", s))
    ∧ (allowlist_check s ip = none →
      ∀ port ips, port? = some port → mapGet s.allowlist_ports port = some ips → ip ∉ ips →
      check_allow s now ip port? = (some s!"Not in allowlist for port {port}", s))
    ∧ (allowlist_check s ip = none → port_allowlist_check s ip port? = none →
      ∀ db c, s.geo_db = some db → db ip = some c →
      ∀ port countries, port? = some port →
        mapGet s.geo_port_blocklist port = some countries → c ∈ countries →
      check_allow s now ip port? = (some s!"Geo blocked for port {port}: {c}", s))
    ∧ (allowlist_check s ip = none → port_allowlist_check s ip port? = none →
      ∀ db c, s.geo_db = some db → db ip = some c →
      (∀ port countries, port? = some port →
        mapGet s.geo_port_blocklist port = some countries → c ∉ countries) →
      c ∈ s.geo_blocklist →
      check_allow s now ip port? = (some s!"Geo blocked: {c}", s))
    ∧ (allowlist_check s ip = none → port_allowlist_check s ip port? = none →
      geo_check s ip port? = none → ip ∈ s.blocklist →
      check_allow s now ip port? = (some "Blocked by rule", s))
    ∧ (allowlist_check s ip = none → port_allowlist_check s ip port? = none →
      geo_check s ip port? = none → blocklist_check s ip = none →
      ∀ port ips, port? = some port → mapGet s.port_blocklist port = some ips → ip ∈ ips →
      check_allow s now ip port? = (some s!"Blocked for port {port}", s))
    ∧ (allowlist_check s ip = none → port_allowlist_check s ip port? = none →
      geo_check s ip port? = none → blocklist_check s ip = none →
      port_blocklist_check s ip port? = none →
      s.rate_limit.max_concurrent_total ≤ s.active.length →
      check_allow s now ip port? = (some "Too many total connections", s))
    ∧ (allowlist_check s ip = none → port_allowlist_check s ip port? = none →
      geo_check s ip port? = none → blocklist_check s ip = none →
      port_blocklist_check s ip port? = none → total_check s = none →
      s.rate_limit.max_concurrent_connections_per_ip ≤ (mapGet s.active_by_ip ip).getD 0 →
      check_allow s now ip port? = (some "Too many active connections for IP", s))
    ∧ (allowlist_check s ip = none → port_allowlist_check s ip port? = none →
      geo_check s ip port? = none → blocklist_check s ip = none →
      port_blocklist_check s ip port? = none → total_check s = none → per_ip_check s ip = none →
      s.rate_limit.max_new_connections_per_minute
          ≤ (pruneWindow now ((mapGet s.rate_counters ip).getD [])).length →
      check_allow s now ip port? = (some "Rate limit exceeded",
        { s with rate_counters := mapPut s.rate_counters ip (pruneWindow now ((mapGet s.rate_counters ip).getD [])) }))
    ∧ (allowlist_check s ip = none → port_allowlist_check s ip port? = none →
      geo_check s ip port? = none → blocklist_check s ip = none →
      port_blocklist_check s ip port? = none → total_check s = none → per_ip_check s ip = none →
      (pruneWindow now ((mapGet s.rate_counters ip).getD [])).length
          < s.rate_limit.max_new_connections_per_minute →
      check_allow s now ip port? = (none,
        { s with rate_counters := mapPut s.rate_counters ip (pruneWindow now ((mapGet s.rate_counters ip).getD []) ++ [now]) }))
    ∧ (∀ port ips, s.allowlist_enabled = false → port? = some port →
      mapGet s.allowlist_ports port = some ips → ips.Nonempty → ip ∉ ips → ip ∈ s.blocklist →
      check_allow s now ip port? = (some s!"Not in allowlist for port {port}", s)) := by
  refine ⟨?_, ?_, ?_, ?_, ?_, ?_, ?_, ?_, ?_, ?_, ?_⟩
  · intro hen hmem
    have h1 : allowlist_check s ip = some "Not in allowlist" := by
      simp [allowlist_check, hen, hmem]
    simp [check_allow, h1]
  · intro h1 port ips hport hget hmem
    have h2 : port_allowlist_check s ip port? = some s!"Not in allowlist for port {port}" := by
      simp [port_allowlist_check, hport, hget, hmem]
    simp [check_allow, h1, h2]
  · intro h1 h2 db c hdb hc port countries hport hget hmem
    have h3 : geo_check s ip port? = some s!"Geo blocked for port {port}: {c}" := by
      simp [geo_check, hdb, hc, hport, hget, hmem]
    simp [check_allow, h1, h2, h3]
  · intro h1 h2 db c hdb hc hper hglob
    have h3 : geo_check s ip port? = some s!"Geo blocked: {c}" := by
      cases hp : port? with
      | none => simp [geo_check, hdb, hc, hglob]
      | some port =>
        cases hg : mapGet s.geo_port_blocklist port with
        | none => simp [geo_check, hdb, hc, hg, hglob]
        | some countries =>
          have hnc := hper port countries hp hg
          simp [geo_check, hdb, hc, hg, hnc, hglob]
    simp [check_allow, h1, h2, h3]
  · intro h1 h2 h3 hmem
    have h4 : blocklist_check s ip = some "Blocked by rule" := by
      simp [blocklist_check, hmem]
    simp [check_allow, h1, h2, h3, h4]
  · intro h1 h2 h3 h4 port ips hport hget hmem
    have h5 : port_blocklist_check s ip port? = some s!"Blocked for port {port}" := by
      simp [port_blocklist_check, hport, hget, hmem]
    simp [check_allow, h1, h2, h3, h4, h5]
  · intro h1 h2 h3 h4 h5 hcap
    have h6 : total_check s = some "Too many total connections" := by
      simp [total_check, hcap]
    simp [check_allow, h1, h2, h3, h4, h5, h6]
  · intro h1 h2 h3 h4 h5 h6 hcap
    have h7 : per_ip_check s ip = some "Too many active connections for IP" := by
      simp [per_ip_check, hcap]
    simp [check_allow, h1, h2, h3, h4, h5, h6, h7]
  · intro h1 h2 h3 h4 h5 h6 h7 hcap
    have h8 : rate_stage s now ip = (some "Rate limit exceeded",
        { s with rate_counters := mapPut s.rate_counters ip (pruneWindow now ((mapGet s.rate_counters ip).getD [])) }) := by
      simp [rate_stage, hcap]
    simp [check_allow, h1, h2, h3, h4, h5, h6, h7, h8]
  · intro h1 h2 h3 h4 h5 h6 h7 hcap
    have h8 : rate_stage s now ip = (none,
        { s with rate_counters := mapPut s.rate_counters ip (pruneWindow now ((mapGet s.rate_counters ip).getD []) ++ [now]) }) := by
      have : ¬ s.rate_limit.max_new_connections_per_minute
          ≤ (pruneWindow now ((mapGet s.rate_counters ip).getD [])).length := by omega
      simp [rate_stage, this]
    simp [check_allow, h1, h2, h3, h4, h5, h6, h7, h8]
  · intro port ips hen hport hget _ hmem hblock
    have h1 : allowlist_check s ip = none := by
      simp [allowlist_check, hen]
    have h2 : port_allowlist_check s ip port? = some s!"Not in allowlist for port {port}" := by
      simp [port_allowlist_check, hport, hget, hmem]
    simp [check_allow, h1, h2]

/-- Witness for the admission-order theorem: on `policyState`, the IP
`10.0.0.3` is in the global blocklist and absent from the non-empty
port-443 allowlist; admission on port 443 fails with the allowlist
reason. -/
theorem check_allow_evaluation_order_witness :
    check_allow policyState 0 "10.0.0.3" (some 443)
      = (some "Not in allowlist for port 443", policyState) :=
  (check_allow_evaluation_order policyState 0 "10.0.0.3" (some 443)).2.2.2.2.2.2.2.2.2.2
    443 {"10.0.0.2"} (by decide) (by decide) (by decide) (by decide) (by decide) (by decide)

theorem countP_mapDrop {K α : Type _} [BEq K] [LawfulBEq K] (m : List (K × α)) (k : K) (v : α)
    (p : K × α → Bool)
    (hnd : (m.map (fun e => e.1)).Nodup) (h : mapGet m k = some v) :
    (mapDrop m k).countP p + (if p (k, v) then 1 else 0) = m.countP p := by
  induction m with
  | nil => simp [mapGet] at h
  | cons e rest ih =>
    rw [List.map_cons, List.nodup_cons] at hnd
    obtain ⟨h1, h2⟩ := hnd
    rw [mapGet_cons e.1 e.2] at h
    by_cases he : e.1 == k
    · have hek : e.1 = k := by simpa using he
      rw [if_pos he] at h
      have hev : e = (k, v) := by
        cases e
        simp_all
      have hfr : mapDrop rest k = rest := mapDrop_rest_of_nodup rest e.1 k h1 hek
      show (List.filter _ (e :: rest)).countP p + _ = _
      rw [List.filter_cons, if_neg (by simp [he]),
        show List.filter (fun e => !(e.1 == k)) rest = rest from hfr, List.countP_cons, hev]
    · rw [if_neg he] at h
      show (List.filter _ (e :: rest)).countP p + _ = _
      rw [List.filter_cons, if_pos (by simp [he]), List.countP_cons, List.countP_cons]
      have := ih h2 h
      simp only [mapDrop] at this
      omega

/-! ## State-shape lemmas for the registry operations -/

/-- `check_allow` can only touch `rate_counters`. -/
theorem check_allow_state (s : AppState) (now : Nat) (ip : String) (port? : Option Nat) :
    ∃ rc, (check_allow s now ip port?).2 = { s with rate_counters := rc } := by
  unfold check_allow
  repeat' split
  all_goals try exact ⟨_, rfl⟩
  all_goals unfold rate_stage
  all_goals dsimp only
  all_goals split
  all_goals exact ⟨_, rfl⟩

/-- A successful `register_connection` returns the pre-state's
`next_conn_id`, increments it, inserts the active record under the fresh
id and bumps the per-IP counter; a failed one leaves everything except
(possibly) the rate windows unchanged. -/
theorem register_connection_spec (s : AppState) (now : Nat) (nowStr : String) (rule_id : Nat)
    (ip : String) (port? : Option Nat) :
    (∀ cid, (register_connection s now nowStr rule_id ip port?).1 = .ok cid →
      cid = (check_allow s now ip port?).2.next_conn_id
      ∧ (register_connection s now nowStr rule_id ip port?).2
          = { (check_allow s now ip port?).2 with
              next_conn_id := cid + 1
              active := mapPut (check_allow s now ip port?).2.active cid
                { conn_id := cid, rule_id := rule_id, client_ip := ip,
                  listen_port := port?, started_at := nowStr, bytes_transferred := 0,
                  last_update := nowStr }
              active_by_ip := mapPut (check_allow s now ip port?).2.active_by_ip ip
                ((mapGet (check_allow s now ip port?).2.active_by_ip ip).getD 0 + 1) })
    ∧ (∀ r, (register_connection s now nowStr rule_id ip port?).1 = .error r →
      (register_connection s now nowStr rule_id ip port?).2
          = (check_allow s now ip port?).2) := by
  constructor
  · intro cid hok
    unfold register_connection at hok ⊢
    rcases hca : check_allow s now ip port? with ⟨r, s1⟩
    rw [hca] at hok
    try rw [hca]
    cases r with
    | some reason => simp at hok
    | none =>
      simp only [] at hok
      have hcid : s1.next_conn_id = cid := by
        simpa using hok
      subst hcid
      exact ⟨rfl, rfl⟩
  · intro r hebad
    unfold register_connection at hebad ⊢
    rcases hca : check_allow s now ip port? with ⟨r', s1⟩
    rw [hca] at hebad
    try rw [hca]
    cases r' with
    | some reason => rfl
    | none => simp at hebad

/-- The fields `check_allow` leaves untouched. -/
theorem check_allow_fields (s : AppState) (now : Nat) (ip : String) (port? : Option Nat) :
    (check_allow s now ip port?).2.next_conn_id = s.next_conn_id
    ∧ (check_allow s now ip port?).2.next_rule_id = s.next_rule_id
    ∧ (check_allow s now ip port?).2.active = s.active
    ∧ (check_allow s now ip port?).2.active_by_ip = s.active_by_ip
    ∧ (check_allow s now ip port?).2.rules = s.rules
    ∧ (check_allow s now ip port?).2.history = s.history := by
  obtain ⟨rc, hrc⟩ := check_allow_state s now ip port?
  rw [hrc]
  exact ⟨rfl, rfl, rfl, rfl, rfl, rfl⟩

theorem registry_inv_check_allow (s : AppState) (now : Nat) (ip : String) (port? : Option Nat)
    (h : RegistryInv s) : RegistryInv (check_allow s now ip port?).2 := by
  obtain ⟨rc, hrc⟩ := check_allow_state s now ip port?
  rw [hrc]
  exact ⟨h.active_nodup, h.abi_nodup, h.abi_accurate, h.abi_pos, h.active_id_lt, h.sum_eq⟩

/-- An admission insertion preserves the registry invariant: stated
abstractly over any post-state whose relevant fields equal the insertion
result, so callers can discharge the three field equations by `rfl`. -/
theorem registry_inv_insert (s post : AppState) (cid : Nat) (conn : ActiveConn) (ip : String)
    (h : RegistryInv s) (hcid : cid = s.next_conn_id) (hip : conn.client_ip = ip)
    (h1 : post.active = mapPut s.active cid conn)
    (h2 : post.active_by_ip = mapPut s.active_by_ip ip ((mapGet s.active_by_ip ip).getD 0 + 1))
    (h3 : post.next_conn_id = cid + 1) :
    RegistryInv post := by
  have hfresh : mapGet s.active cid = none := by
    rw [mapGet_eq_none_iff]
    intro e he
    have hlt : e.1 < s.next_conn_id := h.active_id_lt e he
    simp only [beq_iff_eq]
    omega
  have hput : mapPut s.active cid conn = s.active ++ [(cid, conn)] :=
    mapPut_of_get_none _ _ _ hfresh
  refine ⟨?_, ?_, ?_, ?_, ?_, ?_⟩
  · rw [h1, hput, List.map_append, List.nodup_append]
    refine ⟨h.active_nodup, by simp, ?_⟩
    intro a ha hb
    simp only [List.map_cons, List.map_nil, List.mem_singleton] at hb
    subst hb
    obtain ⟨e, he, hea⟩ := List.mem_map.mp ha
    have := h.active_id_lt e he
    omega
  · rw [h2]
    cases hg : mapGet s.active_by_ip ip with
    | some w => rw [keys_mapPut_of_get_some _ _ _ _ hg]; exact h.abi_nodup
    | none =>
      rw [mapPut_of_get_none _ _ _ hg, List.map_append, List.nodup_append]
      refine ⟨h.abi_nodup, by simp, ?_⟩
      intro a ha hb
      simp only [List.map_cons, List.map_nil, List.mem_singleton] at hb
      obtain ⟨e, he, hea⟩ := List.mem_map.mp ha
      have hnone := (mapGet_eq_none_iff s.active_by_ip ip).mp hg e he
      apply hnone
      rw [show e.1 = ip from by rw [hea, hb], beq_self_eq_true]
  · intro ip'
    rw [h1, h2, mapGet_mapPut, hput, List.countP_append]
    have hone : List.countP (fun e => e.2.client_ip == ip') [(cid, conn)]
        = if ip == ip' then 1 else 0 := by
      by_cases hi : ip == ip' <;> simp [List.countP_cons, hip, hi]
    rw [hone]
    by_cases hi : ip == ip'
    · have hi' : ip = ip' := by simpa using hi
      rw [if_pos hi, if_pos hi]
      subst hi'
      simp only [Option.getD_some]
      rw [h.abi_accurate ip]
    · rw [if_neg hi, if_neg hi]
      have := h.abi_accurate ip'
      omega
  · intro e he
    rw [h2] at he
    rcases mem_mapPut _ _ _ _ he with he' | he'
    · rw [he']
      omega
    · exact h.abi_pos e he'
  · intro e he
    rw [h1, hput] at he
    rw [h3]
    rcases List.mem_append.mp he with he' | he'
    · have := h.active_id_lt e he'
      omega
    · simp only [List.mem_singleton] at he'
      rw [he']
      omega
  · rw [h1, h2, hput, List.length_append]
    cases hg : mapGet s.active_by_ip ip with
    | some c =>
      have hs := values_sum_mapPut_some s.active_by_ip ip (c + 1) c hg
      simp only [Option.getD_some] at hs ⊢
      have hsum := h.sum_eq
      simp only [List.length_singleton]
      omega
    | none =>
      have hs := values_sum_mapPut_none s.active_by_ip ip (0 + 1) hg
      simp only [Option.getD_none] at hs ⊢
      have hsum := h.sum_eq
      simp only [List.length_singleton]
      omega

theorem registry_inv_register (s : AppState) (now : Nat) (nowStr : String) (rule_id : Nat)
    (ip : String) (port? : Option Nat) (h : RegistryInv s) :
    RegistryInv (register_connection s now nowStr rule_id ip port?).2 := by
  obtain ⟨hreg_ok, hreg_err⟩ := register_connection_spec s now nowStr rule_id ip port?
  obtain ⟨hnc, hnr, hact, habi, hrl, hhi⟩ := check_allow_fields s now ip port?
  cases hres : (register_connection s now nowStr rule_id ip port?).1 with
  | error r =>
    rw [hreg_err r hres]
    exact registry_inv_check_allow s now ip port? h
  | ok cid =>
    obtain ⟨hcid, hstate⟩ := hreg_ok cid hres
    rw [hnc] at hcid
    rw [hact, habi] at hstate
    rw [hstate]
    exact registry_inv_insert s _ cid _ ip h hcid rfl rfl rfl rfl

/-- A finalization removal preserves the registry invariant (same abstract
shape as `registry_inv_insert`). -/
theorem registry_inv_remove (s post : AppState) (conn_id : Nat) (conn : ActiveConn)
    (h : RegistryInv s) (hget : mapGet s.active conn_id = some conn)
    (h1 : post.active = mapDrop s.active conn_id)
    (h2 : post.active_by_ip = dec_by_ip s.active_by_ip conn.client_ip)
    (h3 : post.next_conn_id = s.next_conn_id) :
    RegistryInv post := by
  have hmem := mem_of_mapGet_some _ _ _ hget
  have hcpos : 0 < s.active.countP (fun e => e.2.client_ip == conn.client_ip) := by
    rw [List.countP_pos_iff]
    exact ⟨(conn_id, conn), hmem, by simp⟩
  obtain ⟨c, hgc⟩ : ∃ c, mapGet s.active_by_ip conn.client_ip = some c := by
    cases hg : mapGet s.active_by_ip conn.client_ip with
    | none =>
      have hacc := h.abi_accurate conn.client_ip
      rw [hg] at hacc
      simp only [Option.getD_none] at hacc
      omega
    | some c => exact ⟨c, rfl⟩
  have hc : c = s.active.countP (fun e => e.2.client_ip == conn.client_ip) := by
    have hacc := h.abi_accurate conn.client_ip
    rw [hgc] at hacc
    simpa using hacc
  have hdec : dec_by_ip s.active_by_ip conn.client_ip
      = if c - 1 = 0 then mapDrop s.active_by_ip conn.client_ip
        else mapPut s.active_by_ip conn.client_ip (c - 1) := by
    unfold dec_by_ip
    rw [hgc]
  have hlen := length_mapDrop s.active conn_id conn h.active_nodup hget
  by_cases h0 : c - 1 = 0
  · rw [if_pos h0] at hdec
    refine ⟨?_, ?_, ?_, ?_, ?_, ?_⟩
    · rw [h1]
      exact List.Nodup.sublist (keys_mapDrop_sublist _ _) h.active_nodup
    · rw [h2, hdec]
      exact List.Nodup.sublist (keys_mapDrop_sublist _ _) h.abi_nodup
    · intro ip'
      rw [h1, h2, hdec, mapGet_mapDrop]
      have hcount := countP_mapDrop s.active conn_id conn
        (fun e => e.2.client_ip == ip') h.active_nodup hget
      by_cases hcc : conn.client_ip == ip'
      · have hcc' : conn.client_ip = ip' := by simpa using hcc
        rw [if_pos hcc]
        simp only [Option.getD_none]
        rw [if_pos hcc] at hcount
        have := hc
        rw [hcc'] at this
        omega
      · rw [if_neg hcc]
        rw [if_neg hcc] at hcount
        have hacc := h.abi_accurate ip'
        omega
    · intro e he
      rw [h2, hdec] at he
      exact h.abi_pos e (mem_mapDrop _ _ _ he)
    · intro e he
      rw [h1] at he
      rw [h3]
      exact h.active_id_lt e (mem_mapDrop _ _ _ he)
    · rw [h1, h2, hdec]
      have hs := values_sum_mapDrop s.active_by_ip conn.client_ip c h.abi_nodup hgc
      have hsum := h.sum_eq
      omega
  · rw [if_neg h0] at hdec
    refine ⟨?_, ?_, ?_, ?_, ?_, ?_⟩
    · rw [h1]
      exact List.Nodup.sublist (keys_mapDrop_sublist _ _) h.active_nodup
    · rw [h2, hdec]
      rw [keys_mapPut_of_get_some _ _ _ _ hgc]
      exact h.abi_nodup
    · intro ip'
      rw [h1, h2, hdec, mapGet_mapPut]
      have hcount := countP_mapDrop s.active conn_id conn
        (fun e => e.2.client_ip == ip') h.active_nodup hget
      by_cases hcc : conn.client_ip == ip'
      · have hcc' : conn.client_ip = ip' := by simpa using hcc
        rw [if_pos hcc]
        simp only [Option.getD_some]
        rw [if_pos hcc] at hcount
        have := hc
        rw [hcc'] at this
        omega
      · rw [if_neg hcc]
        rw [if_neg hcc] at hcount
        have hacc := h.abi_accurate ip'
        omega
    · intro e he
      rw [h2, hdec] at he
      rcases mem_mapPut _ _ _ _ he with he' | he'
      · rw [he']
        omega
      · exact h.abi_pos e he'
    · intro e he
      rw [h1] at he
      rw [h3]
      exact h.active_id_lt e (mem_mapDrop _ _ _ he)
    · rw [h1, h2, hdec]
      have hs := values_sum_mapPut_some s.active_by_ip conn.client_ip (c - 1) c hgc
      have hsum := h.sum_eq
      omega

theorem registry_inv_finalize (s : AppState) (nowStr : String) (conn_id : Nat)
    (bu bd : Nat) (reason : Option String) (h : RegistryInv s) :
    RegistryInv (record_connection_end s nowStr conn_id bu bd reason) := by
  unfold record_connection_end
  cases hget : mapGet s.active conn_id with
  | none => exact h
  | some conn => exact registry_inv_remove s _ conn_id conn h hget rfl rfl rfl

theorem registry_inv_blocked (s : AppState) (nowStr : String) (rule_id : Nat)
    (port? : Option Nat) (ip reason : String) (h : RegistryInv s) :
    RegistryInv (record_blocked s nowStr rule_id port? ip reason) := by
  refine ⟨h.active_nodup, h.abi_nodup, h.abi_accurate, h.abi_pos, ?_, h.sum_eq⟩
  intro e he
  have := h.active_id_lt e he
  show e.1 < s.next_conn_id + 1
  omega

theorem registry_inv_create (s : AppState) (nowStr la ta : String) (enabled : Bool)
    (proto : ProtocolMode) (h : RegistryInv s) :
    RegistryInv (create_rule s nowStr la ta enabled proto).2 := by
  unfold create_rule
  by_cases hv : (rust_trim la).isEmpty ∨ (rust_trim ta).isEmpty
  · rw [if_pos hv]
    exact h
  · rw [if_neg hv]
    dsimp only
    cases enabled with
    | false =>
      rw [if_neg (by simp)]
      exact ⟨h.active_nodup, h.abi_nodup, h.abi_accurate, h.abi_pos, h.active_id_lt, h.sum_eq⟩
    | true =>
      rw [if_pos rfl]
      cases hexp : expand_listen_targets (rust_trim la) (rust_trim ta) with
      | error err =>
        exact ⟨h.active_nodup, h.abi_nodup, h.abi_accurate, h.abi_pos, h.active_id_lt, h.sum_eq⟩
      | ok tg =>
        exact ⟨h.active_nodup, h.abi_nodup, h.abi_accurate, h.abi_pos, h.active_id_lt, h.sum_eq⟩

theorem registry_inv_apply (s : AppState) (op : RegistryOp) (h : RegistryInv s) :
    RegistryInv (apply_op s op) := by
  cases op with
  | register now nowStr rule_id ip port? => exact registry_inv_register s now nowStr rule_id ip port? h
  | finalize nowStr conn_id bu bd reason => exact registry_inv_finalize s nowStr conn_id bu bd reason h
  | blocked nowStr rule_id port? ip reason => exact registry_inv_blocked s nowStr rule_id port? ip reason h
  | create nowStr la ta enabled proto => exact registry_inv_create s nowStr la ta enabled proto h

theorem registry_inv_run (ops : List RegistryOp) : ∀ s : AppState, RegistryInv s →
    RegistryInv (run_ops s ops) := by
  induction ops with
  | nil => exact fun s h => h
  | cons op rest ih =>
    intro s h
    exact ih (apply_op s op) (registry_inv_apply s op h)

theorem registry_inv_load (p : PersistedState) : RegistryInv (load_state p) := by
  refine ⟨?_, ?_, ?_, ?_, ?_, ?_⟩ <;> simp [load_state, mapGet]

/-- Claim C2: after any sequence of registry operations (admissions,
finalizations, rejections, rule creations) starting from a loaded state,
the values stored in `active_by_ip` sum to the number of entries in the
active-connection map, and every stored counter is positive. -/
theorem active_counter_consistency (p : PersistedState) (ops : List RegistryOp) :
    ((run_ops (load_state p) ops).active_by_ip.map (fun e => e.2)).sum
        = (run_ops (load_state p) ops).active.length
    ∧ ∀ e ∈ (run_ops (load_state p) ops).active_by_ip, 0 < e.2 := by
  have h := registry_inv_run ops (load_state p) (registry_inv_load p)
  exact ⟨h.sum_eq, h.abi_pos⟩

/-- Witness for the counter-consistency theorem on a concrete trace. -/
theorem active_counter_consistency_witness :
    ((run_ops (load_state PersistedState.default) exampleTrace).active_by_ip.map
        (fun e => e.2)).sum
      = (run_ops (load_state PersistedState.default) exampleTrace).active.length :=
  (active_counter_consistency PersistedState.default exampleTrace).1

/-! ## Id-allocation lemmas (claims C7 and C10) -/

theorem record_connection_end_ids (s : AppState) (nowStr : String) (conn_id bu bd : Nat)
    (reason : Option String) :
    (record_connection_end s nowStr conn_id bu bd reason).next_conn_id = s.next_conn_id
    ∧ (record_connection_end s nowStr conn_id bu bd reason).next_rule_id = s.next_rule_id := by
  unfold record_connection_end
  cases hget : mapGet s.active conn_id with
  | none => exact ⟨rfl, rfl⟩
  | some conn => exact ⟨rfl, rfl⟩

theorem create_rule_ids (s : AppState) (nowStr la ta : String) (enabled : Bool)
    (proto : ProtocolMode) :
    (create_rule s nowStr la ta enabled proto).2.next_conn_id = s.next_conn_id
    ∧ (create_rule s nowStr la ta enabled proto).2.next_rule_id
        = (if (rust_trim la).isEmpty ∨ (rust_trim ta).isEmpty then s.next_rule_id
           else s.next_rule_id + 1) := by
  unfold create_rule
  by_cases hv : (rust_trim la).isEmpty ∨ (rust_trim ta).isEmpty
  · rw [if_pos hv, if_pos hv]
    exact ⟨rfl, rfl⟩
  · rw [if_neg hv, if_neg hv]
    dsimp only
    cases enabled with
    | false =>
      rw [if_neg (by simp)]
      exact ⟨rfl, rfl⟩
    | true =>
      rw [if_pos rfl]
      cases hexp : expand_listen_targets (rust_trim la) (rust_trim ta) with
      | error err => exact ⟨rfl, rfl⟩
      | ok tg => exact ⟨rfl, rfl⟩

theorem register_connection_ids (s : AppState) (now : Nat) (nowStr : String) (rule_id : Nat)
    (ip : String) (port? : Option Nat) :
    (register_connection s now nowStr rule_id ip port?).2.next_rule_id = s.next_rule_id
    ∧ (∀ cid, (register_connection s now nowStr rule_id ip port?).1 = .ok cid →
        cid = s.next_conn_id
        ∧ (register_connection s now nowStr rule_id ip port?).2.next_conn_id = cid + 1)
    ∧ (∀ r, (register_connection s now nowStr rule_id ip port?).1 = .error r →
        (register_connection s now nowStr rule_id ip port?).2.next_conn_id = s.next_conn_id) := by
  obtain ⟨hreg_ok, hreg_err⟩ := register_connection_spec s now nowStr rule_id ip port?
  obtain ⟨hnc, hnr, hact, habi, hrl, hhi⟩ := check_allow_fields s now ip port?
  refine ⟨?_, ?_, ?_⟩
  · cases hres : (register_connection s now nowStr rule_id ip port?).1 with
    | error r => rw [hreg_err r hres]; exact hnr
    | ok cid =>
      obtain ⟨hcid, hstate⟩ := hreg_ok cid hres
      rw [hstate]
      exact hnr
  · intro cid hres
    obtain ⟨hcid, hstate⟩ := hreg_ok cid hres
    rw [hnc] at hcid
    rw [hstate]
    exact ⟨hcid, rfl⟩
  · intro r hres
    rw [hreg_err r hres]
    exact hnc

theorem apply_op_next_conn_mono (s : AppState) (op : RegistryOp) :
    s.next_conn_id ≤ (apply_op s op).next_conn_id := by
  cases op with
  | register now nowStr rule_id ip port? =>
    show s.next_conn_id ≤ (register_connection s now nowStr rule_id ip port?).2.next_conn_id
    obtain ⟨_, hok, herr⟩ := register_connection_ids s now nowStr rule_id ip port?
    cases hres : (register_connection s now nowStr rule_id ip port?).1 with
    | error r => rw [herr r hres]
    | ok cid =>
      obtain ⟨hcid, hnext⟩ := hok cid hres
      rw [hnext]
      omega
  | finalize nowStr conn_id bu bd reason =>
    show s.next_conn_id ≤ (record_connection_end s nowStr conn_id bu bd reason).next_conn_id
    rw [(record_connection_end_ids s nowStr conn_id bu bd reason).1]
  | blocked nowStr rule_id port? ip reason =>
    show s.next_conn_id ≤ s.next_conn_id + 1
    omega
  | create nowStr la ta enabled proto =>
    show s.next_conn_id ≤ (create_rule s nowStr la ta enabled proto).2.next_conn_id
    rw [(create_rule_ids s nowStr la ta enabled proto).1]

theorem apply_op_next_rule_mono (s : AppState) (op : RegistryOp) :
    s.next_rule_id ≤ (apply_op s op).next_rule_id := by
  cases op with
  | register now nowStr rule_id ip port? =>
    show s.next_rule_id ≤ (register_connection s now nowStr rule_id ip port?).2.next_rule_id
    rw [(register_connection_ids s now nowStr rule_id ip port?).1]
  | finalize nowStr conn_id bu bd reason =>
    show s.next_rule_id ≤ (record_connection_end s nowStr conn_id bu bd reason).next_rule_id
    rw [(record_connection_end_ids s nowStr conn_id bu bd reason).2]
  | blocked nowStr rule_id port? ip reason =>
    show s.next_rule_id ≤ s.next_rule_id
    omega
  | create nowStr la ta enabled proto =>
    show s.next_rule_id ≤ (create_rule s nowStr la ta enabled proto).2.next_rule_id
    rw [(create_rule_ids s nowStr la ta enabled proto).2]
    split <;> omega

theorem conn_allocs_spec (ops : List RegistryOp) : ∀ s : AppState,
    (∀ a ∈ conn_allocs s ops, s.next_conn_id ≤ a.2)
    ∧ List.Pairwise (fun a b : Bool × Nat => a.2 < b.2) (conn_allocs s ops) := by
  induction ops with
  | nil => exact fun s => ⟨by simp [conn_allocs], by simp [conn_allocs]⟩
  | cons op rest ih =>
    intro s
    obtain ⟨ihlb, ihpw⟩ := ih (apply_op s op)
    have hmono := apply_op_next_conn_mono s op
    have hshape : ∃ here : List (Bool × Nat),
        conn_allocs s (op :: rest) = here ++ conn_allocs (apply_op s op) rest
        ∧ (here = [] ∨ (∃ t, here = [(t, s.next_conn_id)]
            ∧ (apply_op s op).next_conn_id = s.next_conn_id + 1)) := by
      cases op with
      | register now nowStr rule_id ip port? =>
        obtain ⟨_, hok, herr⟩ := register_connection_ids s now nowStr rule_id ip port?
        cases hres : (register_connection s now nowStr rule_id ip port?).1 with
        | error r =>
          refine ⟨[], ?_, Or.inl rfl⟩
          show (match (register_connection s now nowStr rule_id ip port?).1 with
            | Except.ok conn_id => [(false, conn_id)]
            | Except.error _ => ([] : List (Bool × Nat))) ++ _ = _
          rw [hres]
        | ok cid =>
          obtain ⟨hcid, hnext⟩ := hok cid hres
          refine ⟨[(false, cid)], ?_, Or.inr ⟨false, by rw [hcid],
            show (register_connection s now nowStr rule_id ip port?).2.next_conn_id
                = s.next_conn_id + 1 from by rw [hnext, hcid]⟩⟩
          show (match (register_connection s now nowStr rule_id ip port?).1 with
            | Except.ok conn_id => [(false, conn_id)]
            | Except.error _ => ([] : List (Bool × Nat))) ++ _ = _
          rw [hres]
      | finalize nowStr conn_id bu bd reason => exact ⟨[], rfl, Or.inl rfl⟩
      | blocked nowStr rule_id port? ip reason =>
        exact ⟨[(true, s.next_conn_id)], rfl, Or.inr ⟨true, rfl, rfl⟩⟩
      | create nowStr la ta enabled proto => exact ⟨[], rfl, Or.inl rfl⟩
    obtain ⟨here, heq, hcases⟩ := hshape
    rw [heq]
    rcases hcases with hnil | ⟨t, hone, hnext⟩
    · subst hnil
      simp only [List.nil_append]
      exact ⟨fun a ha => le_trans hmono (ihlb a ha), ihpw⟩
    · subst hone
      constructor
      · intro a ha
        rcases List.mem_append.mp ha with ha' | ha'
        · simp only [List.mem_singleton] at ha'
          rw [ha']
        · exact le_trans hmono (ihlb a ha')
      · rw [List.pairwise_append]
        refine ⟨by simp, ihpw, ?_⟩
        intro a ha b hb
        simp only [List.mem_singleton] at ha
        subst ha
        have := ihlb b hb
        rw [hnext] at this
        simpa using this

theorem rule_allocs_spec (ops : List RegistryOp) : ∀ s : AppState,
    (∀ a ∈ rule_allocs s ops, s.next_rule_id ≤ a)
    ∧ List.Pairwise (· < ·) (rule_allocs s ops) := by
  induction ops with
  | nil => exact fun s => ⟨by simp [rule_allocs], by simp [rule_allocs]⟩
  | cons op rest ih =>
    intro s
    obtain ⟨ihlb, ihpw⟩ := ih (apply_op s op)
    have hmono := apply_op_next_rule_mono s op
    have hshape : ∃ here : List Nat,
        rule_allocs s (op :: rest) = here ++ rule_allocs (apply_op s op) rest
        ∧ (here = [] ∨ (here = [s.next_rule_id]
            ∧ (apply_op s op).next_rule_id = s.next_rule_id + 1)) := by
      cases op with
      | register now nowStr rule_id ip port? => exact ⟨[], rfl, Or.inl rfl⟩
      | finalize nowStr conn_id bu bd reason => exact ⟨[], rfl, Or.inl rfl⟩
      | blocked nowStr rule_id port? ip reason => exact ⟨[], rfl, Or.inl rfl⟩
      | create nowStr la ta enabled proto =>
        by_cases hv : (rust_trim la).isEmpty ∨ (rust_trim ta).isEmpty
        · refine ⟨[], ?_, Or.inl rfl⟩
          show (if (rust_trim la).isEmpty ∨ (rust_trim ta).isEmpty then ([] : List Nat)
              else [s.next_rule_id]) ++ _ = _
          rw [if_pos hv]
        · refine ⟨[s.next_rule_id], ?_, Or.inr ⟨rfl, ?_⟩⟩
          · show (if (rust_trim la).isEmpty ∨ (rust_trim ta).isEmpty then ([] : List Nat)
                else [s.next_rule_id]) ++ _ = _
            rw [if_neg hv]
          · show (create_rule s nowStr la ta enabled proto).2.next_rule_id = s.next_rule_id + 1
            rw [(create_rule_ids s nowStr la ta enabled proto).2, if_neg hv]
    obtain ⟨here, heq, hcases⟩ := hshape
    rw [heq]
    rcases hcases with hnil | ⟨hone, hnext⟩
    · subst hnil
      simp only [List.nil_append]
      exact ⟨fun a ha => le_trans hmono (ihlb a ha), ihpw⟩
    · subst hone
      constructor
      · intro a ha
        rcases List.mem_append.mp ha with ha' | ha'
        · simp only [List.mem_singleton] at ha'
          rw [ha']
        · exact le_trans hmono (ihlb a ha')
      · rw [List.pairwise_append]
        refine ⟨by simp, ihpw, ?_⟩
        intro a ha b hb
        simp only [List.mem_singleton] at ha
        subst ha
        have := ihlb b hb
        rw [hnext] at this
        omega

theorem init_le_foldl_max (xs : List Nat) : ∀ a, a ≤ xs.foldl max a := by
  induction xs with
  | nil => exact fun a => le_refl a
  | cons y ys ih =>
    intro a
    calc a ≤ max a y := le_max_left a y
      _ ≤ ys.foldl max (max a y) := ih (max a y)

theorem mem_le_foldl_max (xs : List Nat) : ∀ a x, x ∈ xs → x ≤ xs.foldl max a := by
  induction xs with
  | nil => intro a x hx; simp at hx
  | cons y ys ih =>
    intro a x hx
    rcases List.mem_cons.mp hx with hx' | hx'
    · subst hx'
      calc x ≤ max a x := le_max_right a x
        _ ≤ ys.foldl max (max a x) := init_le_foldl_max ys (max a x)
    · exact ih (max a y) x hx'

/-- Claim C7: `load_state` initializes `next_rule_id` and `next_conn_id`
to one more than the largest id in the loaded document (1 when it is empty
or absent), and along any subsequent trace the connection ids returned by
successful `register_connection` calls and the rule ids consumed by
`create_rule` are each strictly increasing, with every allocated id
strictly above every persisted id of its kind — so no persisted id is ever
reallocated. -/
theorem id_allocation_monotone (p : PersistedState) (ops : List RegistryOp) :
    (load_state p).next_rule_id = (p.rules.map (fun r => r.id)).foldl max 0 + 1
    ∧ (load_state p).next_conn_id = (p.history.map (fun l => l.id)).foldl max 0 + 1
    ∧ (load_state PersistedState.default).next_rule_id = 1
    ∧ (load_state PersistedState.default).next_conn_id = 1
    ∧ List.Pairwise (· < ·) (register_conn_allocs (load_state p) ops)
    ∧ List.Pairwise (· < ·) (rule_allocs (load_state p) ops)
    ∧ (∀ cid ∈ register_conn_allocs (load_state p) ops, ∀ l ∈ p.history, l.id < cid)
    ∧ (∀ rid ∈ rule_allocs (load_state p) ops, ∀ r ∈ p.rules, r.id < rid) := by
  obtain ⟨hclb, hcpw⟩ := conn_allocs_spec ops (load_state p)
  obtain ⟨hrlb, hrpw⟩ := rule_allocs_spec ops (load_state p)
  refine ⟨rfl, rfl, rfl, rfl, ?_, hrpw, ?_, ?_⟩
  · unfold register_conn_allocs
    rw [List.pairwise_map]
    exact List.Pairwise.sublist (List.filter_sublist _) hcpw
  · intro cid hcid l hl
    obtain ⟨a, ha, hav⟩ := List.mem_map.mp hcid
    have ha' : a ∈ conn_allocs (load_state p) ops := List.mem_of_mem_filter ha
    have hlb := hclb a ha'
    have hmax : l.id ≤ (p.history.map (fun l => l.id)).foldl max 0 :=
      mem_le_foldl_max _ 0 l.id (List.mem_map_of_mem (fun l => l.id) hl)
    have hload : (load_state p).next_conn_id
        = (p.history.map (fun l => l.id)).foldl max 0 + 1 := rfl
    omega
  · intro rid hrid r hr
    have hlb := hrlb rid hrid
    have hmax : r.id ≤ (p.rules.map (fun r => r.id)).foldl max 0 :=
      mem_le_foldl_max _ 0 r.id (List.mem_map_of_mem (fun r => r.id) hr)
    have hload : (load_state p).next_rule_id
        = (p.rules.map (fun r => r.id)).foldl max 0 + 1 := rfl
    omega

/-- Witness for the id-allocation theorem: on the example trace from an
empty load, the successfully admitted connection gets id 1 (the blocked
entry consumes id 2) and the created rule gets id 1. -/
theorem id_allocation_monotone_witness :
    List.Pairwise (· < ·) (register_conn_allocs (load_state PersistedState.default) exampleTrace)
    ∧ register_conn_allocs (load_state PersistedState.default) exampleTrace = [1]
    ∧ rule_allocs (load_state PersistedState.default) exampleTrace = [1] :=
  ⟨(id_allocation_monotone PersistedState.default exampleTrace).2.2.2.2.1, by decide, by decide⟩

/-- Claim C10: `record_blocked` draws the blocked entry's id from
`next_conn_id` and increments it, so along any trace the combined id
sequence over successful admissions and blocked entries (tag `true` for
blocked) is strictly increasing, and every blocked entry's id differs from
every accepted connection's id. -/
theorem blocked_ids_share_counter (s : AppState) (nowStr : String) (rule_id : Nat)
    (port? : Option Nat) (ip reason : String) (ops : List RegistryOp) :
    (record_blocked s nowStr rule_id port? ip reason).next_conn_id = s.next_conn_id + 1
    ∧ (∃ e, (record_blocked s nowStr rule_id port? ip reason).history
        = trim_history (s.history ++ [e]) ∧ e.id = s.next_conn_id ∧ e.blocked = true)
    ∧ List.Pairwise (fun a b : Bool × Nat => a.2 < b.2) (conn_allocs s ops)
    ∧ (∀ a ∈ conn_allocs s ops, ∀ b ∈ conn_allocs s ops,
        a.1 = true → b.1 = false → a.2 ≠ b.2) := by
  obtain ⟨hclb, hcpw⟩ := conn_allocs_spec ops s
  refine ⟨rfl, ?_, hcpw, ?_⟩
  · exact ⟨⟨s.next_conn_id, rule_id, ip, port?, nowStr, some nowStr, 0, 0, true, some reason⟩,
      rfl, rfl, rfl⟩
  · intro a ha b hb hat hbf hab
    have hnd : ((conn_allocs s ops).map (fun a => a.2)).Nodup :=
      ((List.pairwise_map).mpr hcpw).imp (fun h => Nat.ne_of_lt h)
    have hinj := List.inj_on_of_nodup_map hnd
    have hab' : a = b := hinj ha hb hab
    rw [hab', hbf] at hat
    exact Bool.noConfusion hat

/-- Witness for the blocked-id theorem: rejecting a connection on
`oneActiveState` advances the shared connection-id counter. -/
theorem blocked_ids_share_counter_witness :
    (record_blocked oneActiveState "t9" 2 (some 7000) "10.0.0.3" "Blocked by rule").next_conn_id
      = oneActiveState.next_conn_id + 1 :=
  (blocked_ids_share_counter oneActiveState "t9" 2 (some 7000) "10.0.0.3" "Blocked by rule"
    exampleTrace).1

/-! ## Claim C5: validation failures and create_rule -/

theorem set_rule_enabled_append (rules : List ProxyRule) (r : ProxyRule) (v : Bool)
    (hfresh : ∀ x ∈ rules, x.id ≠ r.id) :
    set_rule_enabled (rules ++ [r]) r.id v = rules ++ [{ r with enabled := v }] := by
  induction rules with
  | nil =>
    show (if r.id == r.id then _ else _) = _
    rw [if_pos (beq_self_eq_true r.id)]
    rfl
  | cons x xs ih =>
    have hx : ¬ (x.id == r.id) = true := by
      simpa using hfresh x (List.mem_cons_self x xs)
    show (if x.id == r.id then _ else _) = _
    rw [if_neg hx]
    exact congrArg (fun l => x :: l) (ih (fun y hy => hfresh y (List.mem_cons_of_mem x hy)))

/-- Claim C5 counterexample: creating an enabled rule whose port ranges
mismatch returns an error, yet the new rule remains — disabled — in the
rule list and in the persisted snapshot. -/
theorem create_rule_expansion_failure_keeps_rule :
    (create_rule (load_state PersistedState.default) "t0" "0.0.0.0:9000-9002"
        "10.0.0.5:9000-9001" true .tcp).1
      = .error "Listener failed: Port range mismatch: listen has 3 ports, target has 2 ports"
    ∧ (create_rule (load_state PersistedState.default) "t0" "0.0.0.0:9000-9002"
        "10.0.0.5:9000-9001" true .tcp).2.rules
      = [⟨1, "0.0.0.0:9000-9002", "10.0.0.5:9000-9001", false, "t0", .tcp⟩]
    ∧ (snapshot_state (create_rule (load_state PersistedState.default) "t0" "0.0.0.0:9000-9002"
        "10.0.0.5:9000-9001" true .tcp).2).rules
      = [⟨1, "0.0.0.0:9000-9002", "10.0.0.5:9000-9001", false, "t0", .tcp⟩] :=
  ⟨by decide, by decide, by decide⟩

/-- Claim C5 (as amended): every validation failure checked before
mutation rejects the request and leaves the state unchanged — the empty
listen/target address check of `create_rule`, the empty-IP and zero-port
checks of `add_block` and `add_allow`, and the bad-country-code
(`normalize_country`) and zero-port checks of `add_geo_block` and
`remove_geo_block`.  But a `create_rule` whose spec fails expansion
(invalid port, zero port in a range, range too wide, range mismatch) is
rejected only at listener start and does not roll back — the freshly
appended rule remains in the rule list and in the persisted snapshot with
`enabled := false`, the rule-id counter stays advanced, and the listener
error is surfaced. -/
theorem create_rule_validation (s : AppState) (nowStr la ta : String) (enabled : Bool)
    (proto : ProtocolMode) (ip country : String) (qport : Option Nat) :
    ((rust_trim la).isEmpty ∨ (rust_trim ta).isEmpty →
      create_rule s nowStr la ta enabled proto
        = (.error "listen_addr and target_addr are required", s))
    ∧ ((rust_trim ip).isEmpty →
      add_block s ip qport = (.error "IP is required", s)
      ∧ add_allow s ip qport = (.error "IP is required", s))
    ∧ (¬ (rust_trim ip).isEmpty → qport = some 0 →
      add_block s ip qport = (.error "Port must be between 1 and 65535", s)
      ∧ add_allow s ip qport = (.error "Port must be between 1 and 65535", s))
    ∧ (∀ e, normalize_country country = .error e →
      add_geo_block s country qport = (.error e, s)
      ∧ remove_geo_block s country qport = (.error e, s))
    ∧ (∀ c, normalize_country country = .ok c → qport = some 0 →
      add_geo_block s country qport = (.error "Port must be between 1 and 65535", s))
    ∧ (∀ err, ¬ ((rust_trim la).isEmpty ∨ (rust_trim ta).isEmpty) →
      (∀ r ∈ s.rules, r.id ≠ s.next_rule_id) →
      expand_listen_targets (rust_trim la) (rust_trim ta) = .error err →
      (create_rule s nowStr la ta true proto).1 = .error s!"Listener failed: {err}"
      ∧ (create_rule s nowStr la ta true proto).2.rules
          = s.rules ++ [⟨s.next_rule_id, rust_trim la, rust_trim ta, false, nowStr, proto⟩]
      ∧ (snapshot_state (create_rule s nowStr la ta true proto).2).rules
          = s.rules ++ [⟨s.next_rule_id, rust_trim la, rust_trim ta, false, nowStr, proto⟩]
      ∧ (create_rule s nowStr la ta true proto).2.next_rule_id = s.next_rule_id + 1) := by
  refine ⟨?_, ?_, ?_, ?_, ?_, ?_⟩
  · intro hv
    unfold create_rule
    rw [if_pos hv]
  · intro hv
    constructor
    · unfold add_block
      rw [if_pos hv]
    · unfold add_allow
      rw [if_pos hv]
  · intro hv hq
    constructor
    · unfold add_block
      rw [if_neg hv, if_pos hq]
    · unfold add_allow
      rw [if_neg hv, if_pos hq]
  · intro e he
    constructor
    · unfold add_geo_block
      rw [he]
    · unfold remove_geo_block
      rw [he]
  · intro c hc hq
    unfold add_geo_block
    rw [hc]
    dsimp only
    rw [if_pos hq]
  · intro err hv hfresh hexp
    have hred : create_rule s nowStr la ta true proto
        = (.error s!"Listener failed: {err}",
           disable_rule_after_start_failure
             { s with next_rule_id := s.next_rule_id + 1,
                      rules := s.rules ++ [⟨s.next_rule_id, rust_trim la, rust_trim ta, true, nowStr, proto⟩] }
             s.next_rule_id) := by
      unfold create_rule
      rw [if_neg hv]
      dsimp only
      rw [if_pos rfl, hexp]
    have hrules : (create_rule s nowStr la ta true proto).2.rules
        = s.rules ++ [⟨s.next_rule_id, rust_trim la, rust_trim ta, false, nowStr, proto⟩] := by
      rw [hred]
      show set_rule_enabled (s.rules ++ [⟨s.next_rule_id, rust_trim la, rust_trim ta, true, nowStr, proto⟩]) s.next_rule_id false = _
      exact set_rule_enabled_append s.rules _ false hfresh
    refine ⟨by rw [hred], hrules, hrules, by rw [hred]; rfl⟩

/-- Witness for the amended create_rule theorem: an empty listen address,
a three-letter country code and a zero port all leave the state untouched,
while a range-mismatched enabled rule surfaces the listener error. -/
theorem create_rule_validation_witness :
    create_rule (load_state PersistedState.default) "t0" "" "10.0.0.5:80" true .tcp
      = (.error "listen_addr and target_addr are required", load_state PersistedState.default)
    ∧ add_geo_block policyState "RUS" none
      = (.error "Country code must be 2 letters", policyState)
    ∧ add_block policyState "10.0.0.7" (some 0)
      = (.error "Port must be between 1 and 65535", policyState)
    ∧ (create_rule (load_state PersistedState.default) "t0" "0.0.0.0:1-3" "10.0.0.5:1-2"
        true .tcp).1
      = .error "Listener failed: Port range mismatch: listen has 3 ports, target has 2 ports" :=
  ⟨(create_rule_validation (load_state PersistedState.default) "t0" "" "10.0.0.5:80" true
      .tcp "x" "RU" none).1 (by decide),
   ((create_rule_validation policyState "t" "a:1" "b:1" true .tcp "x" "RUS" none).2.2.2.1
      "Country code must be 2 letters" (by decide)).1,
   ((create_rule_validation policyState "t" "a:1" "b:1" true .tcp "10.0.0.7" "RU"
      (some 0)).2.2.1 (by decide) (by decide)).1,
   ((create_rule_validation (load_state PersistedState.default) "t0" "0.0.0.0:1-3" "10.0.0.5:1-2"
      true .tcp "x" "RU" none).2.2.2.2.2 "Port range mismatch: listen has 3 ports, target has 2 ports"
      (by decide) (by decide) (by decide)).1⟩

/-! ## Claim C6: listen/target pairing -/

/-- Claim C6: once both addresses split and both port tokens parse, a
single-port target is paired with every listen port (as many expanded
targets as listen ports); a target list of the same cardinality as the
listen list is paired positionally (the i-th listen port with the i-th
target port); any other cardinality fails with the mismatch error and
produces no targets. -/
theorem expand_listen_targets_pairing (la ta lh lpr th tpr : String) (L T : List Nat)
    (hls : split_host_port la = .ok (lh, lpr)) (hlp : parse_ports lpr = .ok L)
    (hts : split_host_port ta = .ok (th, tpr)) (htp : parse_ports tpr = .ok T) :
    (T.length = 1 →
      expand_listen_targets la ta
        = .ok (L.map fun lp => ⟨format_addr lh lp, lp, format_addr th (T.headD 0)⟩)
      ∧ ∃ res, expand_listen_targets la ta = .ok res ∧ res.length = L.length)
    ∧ (T.length = L.length →
      ∃ res, expand_listen_targets la ta = .ok res ∧ res.length = L.length
        ∧ ∀ i, res.get? i = (L.get? i).bind fun lp => (T.get? i).map fun tp =>
            ⟨format_addr lh lp, lp, format_addr th tp⟩)
    ∧ (T.length ≠ 1 → T.length ≠ L.length →
      expand_listen_targets la ta = .error ("Port range mismatch: listen has "
        ++ toString L.length ++ " ports, target has " ++ toString T.length ++ " ports")) := by
  have hstep : expand_listen_targets la ta
      = (if T.length = 1 then
          .ok (L.map fun lp => ⟨format_addr lh lp, lp, format_addr th (T.headD 0)⟩)
        else if T.length = L.length then
          .ok ((L.zip T).map fun pr => ⟨format_addr lh pr.1, pr.1, format_addr th pr.2⟩)
        else
          .error ("Port range mismatch: listen has " ++ toString L.length
            ++ " ports, target has " ++ toString T.length ++ " ports")) := by
    unfold expand_listen_targets
    rw [hls]
    show (parse_ports lpr).bind _ = _
    rw [hlp]
    show (split_host_port ta).bind _ = _
    rw [hts]
    show (parse_ports tpr).bind _ = _
    rw [htp]
    rfl
  refine ⟨?_, ?_, ?_⟩
  · intro h1
    rw [hstep, if_pos h1]
    refine ⟨rfl, _, rfl, by rw [List.length_map]⟩
  · intro hTL
    by_cases h1 : T.length = 1
    · obtain ⟨t, ht⟩ : ∃ t, T = [t] := List.length_eq_one.mp h1
      obtain ⟨l, hl⟩ : ∃ l, L = [l] := List.length_eq_one.mp (by omega)
      rw [hstep, if_pos h1]
      refine ⟨_, rfl, by rw [List.length_map], ?_⟩
      intro i
      subst ht hl
      cases i with
      | zero => rfl
      | succ j => cases j <;> rfl
    · rw [hstep, if_neg h1, if_pos hTL]
      refine ⟨_, rfl, ?_, ?_⟩
      · rw [List.length_map, List.length_zip, hTL, Nat.min_self]
      · intro i
        rw [List.get?_map]
        rw [show (L.zip T).get? i = ((L.get? i).map Prod.mk).bind (fun g => (T.get? i).map g)
          from List.get?_zipWith' Prod.mk L T i]
        cases hLi : L.get? i with
        | none => rfl
        | some lp =>
          cases hTi : T.get? i with
          | none => rfl
          | some tp => rfl
  · intro h1 hTL
    rw [hstep, if_neg h1, if_neg hTL]

/-- Witness for the pairing theorem: a three-port listen range against a
single target port expands to three targets sharing the target port. -/
theorem expand_listen_targets_pairing_witness :
    expand_listen_targets "0.0.0.0:9000-9002" "10.0.0.5:9100"
      = .ok ([9000, 9001, 9002].map fun lp =>
          ⟨format_addr "0.0.0.0" lp, lp, format_addr "10.0.0.5" ([9100].headD 0)⟩) :=
  ((expand_listen_targets_pairing "0.0.0.0:9000-9002" "10.0.0.5:9100" "0.0.0.0" "9000-9002"
      "10.0.0.5" "9100" [9000, 9001, 9002] [9100]
      (by decide) (by decide) (by decide) (by decide)).1 (by decide)).1

/-! ## Claim C8: snapshot/load round trip -/

theorem mapGet_map_insert_set (m : List (Nat × Finset String)) (p : Nat) (ip : String) (q : Nat) :
    mapGet (map_insert_set m p ip) q
      = if p == q then some (insert ip ((mapGet m p).getD ∅)) else mapGet m q := by
  induction m with
  | nil =>
    simp only [map_insert_set]
    rw [mapGet_cons]
    by_cases hpq : p == q
    · rw [if_pos hpq, if_pos hpq]
      simp [mapGet]
    · rw [if_neg hpq, if_neg hpq]
  | cons ev rest ih =>
    obtain ⟨k, v⟩ := ev
    simp only [map_insert_set]
    by_cases he : (k, v).1 == p
    · rw [if_pos he]
      have hep : k = p := by simpa using he
      subst hep
      rw [mapGet_cons k (insert ip v) rest q, mapGet_cons k v rest q, mapGet_cons k v rest k,
        if_pos (beq_self_eq_true k)]
      by_cases hq : k == q
      · rw [if_pos hq, if_pos hq]
        simp
      · rw [if_neg hq, if_neg hq, if_neg hq]
    · rw [if_neg he]
      rw [mapGet_cons k v _ q, ih, mapGet_cons k v rest q, mapGet_cons k v rest p,
        if_neg he]
      by_cases hq : k == q
      · have hkq : k = q := by simpa using hq
        have hpq : ¬ (p == q) = true := by
          intro hc
          apply he
          have hpq' : p = q := by simpa using hc
          show (k == p) = true
          rw [show k = p from by rw [hkq, hpq']]
          exact beq_self_eq_true p
        rw [if_pos hq, if_neg hpq, if_pos hq]
      · rw [if_neg hq, if_neg hq]

/-- Characterization of a fold of `map_insert_set` steps over an entry
list, generalizing over the accumulator map. -/
theorem build_fold_get (entries : List (String × Nat)) :
    ∀ (m : List (Nat × Finset String)) (q : Nat),
    (mapGet (entries.foldl (fun m e => map_insert_set m e.2 e.1) m) q = none
      ↔ (mapGet m q = none ∧ ∀ e ∈ entries, e.2 ≠ q))
    ∧ (∀ S, mapGet (entries.foldl (fun m e => map_insert_set m e.2 e.1) m) q = some S →
        ∀ ip, ip ∈ S ↔ ((ip, q) ∈ entries ∨ ∃ S0, mapGet m q = some S0 ∧ ip ∈ S0)) := by
  induction entries with
  | nil =>
    intro m q
    refine ⟨by simp, ?_⟩
    intro S hS ip
    have hS' : mapGet m q = some S := hS
    simp only [List.not_mem_nil, false_or]
    constructor
    · intro h
      exact ⟨S, hS', h⟩
    · rintro ⟨S0, hS0, h0⟩
      rw [hS'] at hS0
      cases hS0
      exact h0
  | cons e rest ih =>
    intro m q
    have hstep : (e :: rest).foldl (fun m e => map_insert_set m e.2 e.1) m
        = rest.foldl (fun m e => map_insert_set m e.2 e.1) (map_insert_set m e.2 e.1) := rfl
    obtain ⟨ihn, ihs⟩ := ih (map_insert_set m e.2 e.1) q
    have hA := mapGet_map_insert_set m e.2 e.1 q
    constructor
    · rw [hstep, ihn]
      by_cases hq : e.2 == q
      · have hq' : e.2 = q := by simpa using hq
        rw [hA, if_pos hq]
        constructor
        · intro ⟨hc, _⟩
          cases hc
        · intro ⟨_, hall⟩
          exact absurd hq' (hall e (List.mem_cons_self e rest))
      · have hq' : e.2 ≠ q := by simpa using hq
        rw [hA, if_neg hq]
        constructor
        · intro ⟨h1, h2⟩
          refine ⟨h1, ?_⟩
          intro x hx
          rcases List.mem_cons.mp hx with hx' | hx'
          · rw [hx']
            exact hq'
          · exact h2 x hx'
        · intro ⟨h1, h2⟩
          exact ⟨h1, fun x hx => h2 x (List.mem_cons_of_mem e hx)⟩
    · intro S hS ip
      rw [hstep] at hS
      rw [ihs S hS ip]
      by_cases hq : e.2 == q
      · have hq' : e.2 = q := by simpa using hq
        rw [hA, if_pos hq]
        constructor
        · intro hc
          rcases hc with hc | ⟨S0, hS0, h0⟩
          · exact Or.inl (List.mem_cons_of_mem e hc)
          · cases hS0
            rcases Finset.mem_insert.mp h0 with h0' | h0'
            · refine Or.inl ?_
              rw [h0']
              rw [show e = (e.1, e.2) from rfl, hq']
              exact List.mem_cons_self _ _
            · rw [hq'] at h0'
              cases hm : mapGet m q with
              | none => rw [hm] at h0'; simp at h0'
              | some S1 =>
                rw [hm] at h0'
                exact Or.inr ⟨S1, rfl, by simpa using h0'⟩
        · intro hc
          rcases hc with hc | ⟨S0, hS0, h0⟩
          · rcases List.mem_cons.mp hc with hc' | hc'
            · refine Or.inr ⟨insert e.1 ((mapGet m e.2).getD ∅), rfl, ?_⟩
              have : ip = e.1 := by
                have := congrArg Prod.fst hc'
                simpa using this
              rw [this]
              exact Finset.mem_insert_self _ _
            · exact Or.inl hc'
          · refine Or.inr ⟨insert e.1 ((mapGet m e.2).getD ∅), rfl, ?_⟩
            apply Finset.mem_insert_of_mem
            rw [hq', hS0]
            simpa using h0
      · have hq' : e.2 ≠ q := by simpa using hq
        rw [hA, if_neg hq]
        constructor
        · intro hc
          rcases hc with hc | hc
          · exact Or.inl (List.mem_cons_of_mem e hc)
          · exact Or.inr hc
        · intro hc
          rcases hc with hc | hc
          · rcases List.mem_cons.mp hc with hc' | hc'
            · exfalso
              apply hq'
              have := congrArg Prod.snd hc'
              simpa using this.symm
            · exact Or.inl hc'
          · exact Or.inr hc

theorem build_port_map_get_none (entries : List (String × Nat)) (q : Nat) :
    mapGet (build_port_map entries) q = none ↔ ∀ e ∈ entries, e.2 ≠ q := by
  have := (build_fold_get entries [] q).1
  simpa [build_port_map, mapGet] using this

theorem build_port_map_get_some (entries : List (String × Nat)) (q : Nat) (S : Finset String)
    (hS : mapGet (build_port_map entries) q = some S) :
    ∀ ip, ip ∈ S ↔ (ip, q) ∈ entries := by
  intro ip
  have := (build_fold_get entries [] q).2 S hS ip
  simpa [mapGet] using this

theorem mapGet_of_mem_nodup : ∀ (m : List (Nat × Finset String)),
    (m.map (fun e => e.1)).Nodup → ∀ (q : Nat) (S : Finset String),
    (q, S) ∈ m → mapGet m q = some S := by
  intro m
  induction m with
  | nil => intro _ q S hmem; simp at hmem
  | cons e rest ih =>
    intro hnd q S hmem
    rw [List.map_cons, List.nodup_cons] at hnd
    rw [mapGet_cons]
    rcases List.mem_cons.mp hmem with he | he
    · rw [← he]
      simp
    · have hne : ¬ (e.1 == q) = true := by
        intro hc
        apply hnd.1
        have hq : e.1 = q := by simpa using hc
        rw [hq]
        exact List.mem_map_of_mem (fun e => e.1) he
      rw [if_neg hne]
      exact ih hnd.2 q S he

theorem mapGet_eq_some_iff_mem (m : List (Nat × Finset String))
    (hnd : (m.map (fun e => e.1)).Nodup) (q : Nat) (S : Finset String) :
    mapGet m q = some S ↔ (q, S) ∈ m :=
  ⟨mem_of_mapGet_some m q S, mapGet_of_mem_nodup m hnd q S⟩


theorem flatten_port_map_mem (m : List (Nat × Finset String))
    (hnd : (m.map (fun e => e.1)).Nodup) (ip : String) (q : Nat) :
    (ip, q) ∈ flatten_port_map m ↔ ∃ S, mapGet m q = some S ∧ ip ∈ S := by
  unfold flatten_port_map
  rw [List.mem_flatten]
  constructor
  · rintro ⟨l, hl, hmem⟩
    obtain ⟨e, he, hle⟩ := List.mem_map.mp hl
    rw [← hle] at hmem
    obtain ⟨v, hv, hveq⟩ := List.mem_map.mp hmem
    have hv' : v = ip := congrArg Prod.fst hveq
    have he1 : e.1 = q := congrArg Prod.snd hveq
    refine ⟨e.2, ?_, ?_⟩
    · rw [← he1]
      exact mapGet_of_mem_nodup m hnd e.1 e.2 (by simpa using he)
    · rw [← hv']
      exact (Finset.mem_sort _).mp hv
  · rintro ⟨S, hS, hip⟩
    have hmem := mem_of_mapGet_some m q S hS
    refine ⟨(S.sort (· ≤ ·)).map (fun v => (v, q)), ?_, ?_⟩
    · exact List.mem_map.mpr ⟨(q, S), hmem, rfl⟩
    · exact List.mem_map.mpr ⟨ip, (Finset.mem_sort _).mpr hip, rfl⟩

/-- One port-indexed map survives the snapshot/load round trip: rebuilding
from any permutation of the flattened entries reproduces the map
extensionally, given unique keys and no empty sets. -/
theorem round_trip_map (m : List (Nat × Finset String)) (es : List (String × Nat))
    (hperm : es.Perm (flatten_port_map m))
    (hnd : (m.map (fun e => e.1)).Nodup)
    (hne : ∀ e ∈ m, e.2 ≠ ∅) (q : Nat) :
    mapGet (build_port_map es) q = mapGet m q := by
  cases hm : mapGet m q with
  | none =>
    rw [build_port_map_get_none]
    intro e he hq
    have hflat : (e.1, e.2) ∈ flatten_port_map m := hperm.mem_iff.mp (by simpa using he)
    rw [hq] at hflat
    obtain ⟨S, hS, _⟩ := (flatten_port_map_mem m hnd e.1 q).mp hflat
    rw [hm] at hS
    cases hS
  | some S =>
    have hSne : S ≠ ∅ := hne (q, S) (mem_of_mapGet_some m q S hm)
    obtain ⟨ip0, hip0⟩ := Finset.nonempty_iff_ne_empty.mpr hSne
    have hflat : (ip0, q) ∈ flatten_port_map m :=
      (flatten_port_map_mem m hnd ip0 q).mpr ⟨S, hm, hip0⟩
    have hes : (ip0, q) ∈ es := hperm.mem_iff.mpr hflat
    cases hb : mapGet (build_port_map es) q with
    | none =>
      exact absurd rfl ((build_port_map_get_none es q).mp hb (ip0, q) hes)
    | some S' =>
      congr 1
      apply Finset.ext
      intro ip
      rw [build_port_map_get_some es q S' hb ip]
      constructor
      · intro hmem
        obtain ⟨S1, hS1, h1⟩ := (flatten_port_map_mem m hnd ip q).mp (hperm.mem_iff.mp hmem)
        rw [hm] at hS1
        cases hS1
        exact h1
      · intro hmem
        exact hperm.mem_iff.mpr ((flatten_port_map_mem m hnd ip q).mpr ⟨S, hm, hmem⟩)

/-- Mapping persisted `PortEntry` values back to pairs undoes the
`PortEntry.mk` applied while writing the snapshot. -/
theorem port_entry_round (l : List (String × Nat)) :
    ((l.map (fun e => PortEntry.mk e.1 e.2)).map (fun e => (e.ip, e.port))) = l := by
  rw [List.map_map]
  exact List.map_id'' (fun x => rfl) l

theorem geo_entry_round (l : List (String × Nat)) :
    ((l.map (fun e => GeoPortEntry.mk e.1 e.2)).map (fun e => (to_upper e.country, e.port)))
      = l.map (fun e => (to_upper e.1, e.2)) := by
  rw [List.map_map]
  exact List.map_congr_left (fun x _ => rfl)

/-- Claim C8: serializing the in-memory state with `snapshot_state` and
re-loading it through `load_state` reproduces every persisted field — the
rule list, the global sets, the allowlist mode, the history, the rate
limits exactly, and the three port-indexed maps extensionally (up to the
ordering the snapshot imposed on set-valued collections) — for states
satisfying the reachable-state facts `SnapshotWF`. -/
theorem snapshot_load_round_trip (s : AppState) (h : SnapshotWF s) :
    (load_state (snapshot_state s)).rules = s.rules
    ∧ (load_state (snapshot_state s)).blocklist = s.blocklist
    ∧ (load_state (snapshot_state s)).allowlist = s.allowlist
    ∧ (load_state (snapshot_state s)).allowlist_enabled = s.allowlist_enabled
    ∧ (load_state (snapshot_state s)).geo_blocklist = s.geo_blocklist
    ∧ (load_state (snapshot_state s)).history = s.history
    ∧ (load_state (snapshot_state s)).rate_limit = s.rate_limit
    ∧ (∀ q, mapGet (load_state (snapshot_state s)).port_blocklist q
        = mapGet s.port_blocklist q)
    ∧ (∀ q, mapGet (load_state (snapshot_state s)).allowlist_ports q
        = mapGet s.allowlist_ports q)
    ∧ (∀ q, mapGet (load_state (snapshot_state s)).geo_port_blocklist q
        = mapGet s.geo_port_blocklist q) := by
  refine ⟨rfl, ?_, ?_, rfl, ?_, rfl, rfl, ?_, ?_, ?_⟩
  · show (s.blocklist.sort (· ≤ ·)).toFinset = s.blocklist
    exact Finset.sort_toFinset _ _
  · show (s.allowlist.sort (· ≤ ·)).toFinset = s.allowlist
    exact Finset.sort_toFinset _ _
  · show ((s.geo_blocklist.sort (· ≤ ·)).map to_upper).toFinset = s.geo_blocklist
    rw [List.map_congr_left (fun c hc => h.geo_upper c ((Finset.mem_sort _).mp hc)),
      List.map_id']
    exact Finset.sort_toFinset _ _
  · intro q
    show mapGet (build_port_map
        ((((flatten_port_map s.port_blocklist).mergeSort
            (fun a b => entry_le a.2 b.2 a.1 b.1)).map (fun e => PortEntry.mk e.1 e.2)).map
          (fun e => (e.ip, e.port)))) q
      = mapGet s.port_blocklist q
    rw [port_entry_round]
    exact round_trip_map s.port_blocklist _ (List.mergeSort_perm _ _)
      h.pb_keys_nodup h.pb_nonempty q
  · intro q
    show mapGet (build_port_map
        ((((flatten_port_map s.allowlist_ports).mergeSort
            (fun a b => entry_le a.2 b.2 a.1 b.1)).map (fun e => PortEntry.mk e.1 e.2)).map
          (fun e => (e.ip, e.port)))) q
      = mapGet s.allowlist_ports q
    rw [port_entry_round]
    exact round_trip_map s.allowlist_ports _ (List.mergeSort_perm _ _)
      h.ap_keys_nodup h.ap_nonempty q
  · intro q
    show mapGet (build_port_map
        ((((flatten_port_map s.geo_port_blocklist).mergeSort
            (fun a b => entry_le a.2 b.2 a.1 b.1)).map (fun e => GeoPortEntry.mk e.1 e.2)).map
          (fun e => (to_upper e.country, e.port)))) q
      = mapGet s.geo_port_blocklist q
    rw [geo_entry_round]
    have hup : ((flatten_port_map s.geo_port_blocklist).mergeSort
        (fun a b => entry_le a.2 b.2 a.1 b.1)).map (fun e => (to_upper e.1, e.2))
        = (flatten_port_map s.geo_port_blocklist).mergeSort
            (fun a b => entry_le a.2 b.2 a.1 b.1) := by
      have hmem : ∀ e ∈ (flatten_port_map s.geo_port_blocklist).mergeSort
          (fun a b => entry_le a.2 b.2 a.1 b.1), to_upper e.1 = e.1 := by
        intro e he
        have hf : e ∈ flatten_port_map s.geo_port_blocklist :=
          (List.mergeSort_perm _ _).mem_iff.mp he
        have hf' : (e.1, e.2) ∈ flatten_port_map s.geo_port_blocklist := by simpa using hf
        obtain ⟨S, hS, hin⟩ :=
          (flatten_port_map_mem s.geo_port_blocklist h.gp_keys_nodup e.1 e.2).mp hf'
        exact h.gp_upper (e.2, S) (mem_of_mapGet_some _ _ _ hS) e.1 hin
      calc ((flatten_port_map s.geo_port_blocklist).mergeSort
            (fun a b => entry_le a.2 b.2 a.1 b.1)).map (fun e => (to_upper e.1, e.2))
          = ((flatten_port_map s.geo_port_blocklist).mergeSort
              (fun a b => entry_le a.2 b.2 a.1 b.1)).map (fun e => e) := by
            apply List.map_congr_left
            intro e he
            rw [hmem e he]
        _ = _ := List.map_id' _
    rw [hup]
    exact round_trip_map s.geo_port_blocklist _ (List.mergeSort_perm _ _)
      h.gp_keys_nodup h.gp_nonempty q

/-- Witness for the round-trip theorem on `policyState`. -/
theorem snapshot_load_round_trip_witness :
    (load_state (snapshot_state policyState)).blocklist = policyState.blocklist
    ∧ (load_state (snapshot_state policyState)).rules = policyState.rules :=
  ⟨(snapshot_load_round_trip policyState
      ⟨by decide, by decide, by decide, by decide, by decide, by decide, by decide,
        by decide⟩).2.1,
   (snapshot_load_round_trip policyState
      ⟨by decide, by decide, by decide, by decide, by decide, by decide, by decide,
        by decide⟩).1⟩

end ProxyPanel
